import Mathlib

/-!
# go-virtualbox: forwarding rules, shared folders and VBoxManage error classification

A shallow embedding of `pfrule.go`, `sfolder.go` and `vbm.go`.

* Go strings are lists of characters (`GoString`); the patterns and separators
  the code looks for are ASCII, so searching by character and by byte agree.
* A Go map is a duplicate-free association list (`GoMap`).  The order in which
  `range` visits a map is not fixed by the language, so every function that
  ranges over a map takes the visiting order as an argument, and the theorems
  hold for every order that is a permutation of the entries.
* A possibly-nil map, slice, function or error is an `Option`.
* A regular expression is a matcher written after its pattern: a greedy
  repetition tries the longest run first and gives way to the rest of the
  pattern, alternatives are tried in their order, and the search takes the
  leftmost start, as Go's `regexp` does.
* Methods with a pointer receiver that assign to the receiver return the new
  receiver next to their result.
* Standard-library routines whose text is not part of the repository
  (`net.ParseIP`, `net.IP.String`, `strconv.Quote`) are fields of `GoLib`, and
  the theorems hold for every `GoLib`.
-/

namespace VirtualBox

/-! ## Strings -/

/-- A Go string. -/
abbrev GoString := List Char

/-- The Go function `strings.HasPrefix`. -/
def HasPrefix (s pre : GoString) : Bool :=
  match pre, s with
  | [], _ => true
  | _ :: _, [] => false
  | p :: ps, c :: cs => p == c && HasPrefix cs ps

/-- The Go function `strings.Split` for the separator `","`: the pieces
between the commas, one more than there are commas. -/
def splitComma : GoString → List GoString
  | [] => [[]]
  | c :: cs =>
    if c = ',' then [] :: splitComma cs
    else
      match splitComma cs with
      | [] => [[c]]
      | f :: fs => (c :: f) :: fs

/-- Pieces joined by commas, as `fmt.Sprintf` does for a format
`"%s,%s,...,%s"`. -/
def joinComma : List GoString → GoString
  | [] => []
  | [f] => f
  | f :: g :: fs => f ++ ',' :: joinComma (g :: fs)

/-- The verb `%d` of `fmt` on an unsigned integer: plain decimal digits. -/
def fmtD (n : Nat) : GoString := Nat.toDigits 10 n

/-! ## Maps -/

/-- A Go `map[string]V`: entries with pairwise different keys. -/
structure GoMap (V : Type) where
  entries : List (GoString × V)
  nodup : (entries.map Prod.fst).Nodup

namespace GoMap

variable {V : Type}

/-- The result of `make(map[string]V)`. -/
def empty : GoMap V := ⟨[], List.nodup_nil⟩

/-- Lookup in a list of entries. -/
def lookupIn (k : GoString) : List (GoString × V) → Option V
  | [] => none
  | (k', v) :: t => if k' = k then some v else lookupIn k t

/-- Assignment in a list of entries: the entry of `k` is replaced where it
stands, or added when there is none. -/
def storeIn (k : GoString) (v : V) : List (GoString × V) → List (GoString × V)
  | [] => [(k, v)]
  | (k', v') :: t => if k' = k then (k, v) :: t else (k', v') :: storeIn k v t

theorem keys_storeIn (k : GoString) (v : V) (l : List (GoString × V)) :
    (storeIn k v l).map Prod.fst =
      if k ∈ l.map Prod.fst then l.map Prod.fst else l.map Prod.fst ++ [k] := by
  induction l with
  | nil => simp [storeIn]
  | cons e t ih =>
    obtain ⟨k', v'⟩ := e
    by_cases h : k' = k
    · subst h
      simp only [storeIn, if_true, List.map_cons, List.mem_cons, true_or]
    · have h' : ¬ k = k' := fun x => h x.symm
      simp only [storeIn, h, if_false, List.map_cons, ih, List.mem_cons, h', false_or]
      split
      · rfl
      · rfl

theorem nodup_storeIn (k : GoString) (v : V) (l : List (GoString × V))
    (h : (l.map Prod.fst).Nodup) : ((storeIn k v l).map Prod.fst).Nodup := by
  rw [keys_storeIn]
  split
  · exact h
  · rename_i hk
    rw [List.nodup_append]
    refine ⟨h, List.nodup_singleton k, ?_⟩
    intro a ha hb
    simp only [List.mem_singleton] at hb
    subst hb
    exact hk ha

/-- The map read `m[k]` with its `ok` flag: `none` when `k` has no entry. -/
def get (m : GoMap V) (k : GoString) : Option V := lookupIn k m.entries

/-- The map assignment `m[k] = v`. -/
def set (m : GoMap V) (k : GoString) (v : V) : GoMap V :=
  ⟨storeIn k v m.entries, nodup_storeIn k v m.entries m.nodup⟩

/-- The builtin `len(m)`. -/
def len (m : GoMap V) : Nat := m.entries.length

instance [DecidableEq V] : DecidableEq (GoMap V) := fun a b =>
  decidable_of_iff (a.entries = b.entries) (by
    cases a; cases b; simp)

end GoMap

/-! ## Standard library -/

/-- A non-nil `net.IP`: its bytes. -/
abbrev IP := List Nat

/-- The standard-library routines the code calls whose text is not part of
the repository.  `ParseIP s` is `none` when `net.ParseIP(s)` is nil,
`IPString` is the method `net.IP.String`, `Quote` is `strconv.Quote`. -/
structure GoLib where
  ParseIP : GoString → Option IP
  IPString : IP → GoString
  Quote : GoString → GoString

/-- The two errors of package `strconv`: `ErrSyntax` and `ErrRange`. -/
inductive NumErr where
  | ErrSyntax
  | ErrRange
  deriving DecidableEq, Repr

/-- The text of a `strconv` error. -/
def NumErr.Error : NumErr → GoString
  | .ErrSyntax => "invalid syntax".toList
  | .ErrRange => "value out of range".toList

/-- The width of Go's `int`, `strconv.IntSize`, on a 64-bit platform. -/
def intSize : Nat := 64

/-- The loop of `strconv.ParseUint(s, 10, 64)`: `n` is the number read so
far.  A character that is no decimal digit is a syntax error; a number that
does not fit 64 bits is a range error. -/
def parseUintLoop (n : Nat) : GoString → Except NumErr Nat
  | [] => .ok n
  | c :: cs =>
    if '0' ≤ c ∧ c ≤ '9' then
      if n ≥ (2 ^ 64 - 1) / 10 + 1 then .error .ErrRange
      else
        let n1 := n * 10 + (c.toNat - '0'.toNat)
        if n1 > 2 ^ 64 - 1 then .error .ErrRange else parseUintLoop n1 cs
    else .error .ErrSyntax

/-- The Go function `strconv.Atoi`, which is `ParseInt(s, 10, 0)`: an
optional sign, then one decimal digit or more, and a value that fits `int`. -/
def Atoi (s : GoString) : Except NumErr Int :=
  match s with
  | [] => .error .ErrSyntax
  | c :: cs =>
    let neg := c == '-'
    let digits := if c = '+' ∨ c = '-' then cs else s
    match digits with
    | [] => .error .ErrSyntax
    | _ :: _ =>
      match parseUintLoop 0 digits with
      | .error e => .error e
      | .ok un =>
        let cutoff := 2 ^ (intSize - 1)
        if !neg && un ≥ cutoff then .error .ErrRange
        else if neg && un > cutoff then .error .ErrRange
        else .ok (if neg then -(un : Int) else (un : Int))

/-- The text of the `*strconv.NumError` that `Atoi` returns for the input
`s`: `strconv.Atoi: parsing "s": reason`. -/
def atoiErrorText (lib : GoLib) (s : GoString) (e : NumErr) : GoString :=
  "strconv.Atoi: parsing ".toList ++ lib.Quote s ++ ": ".toList ++ e.Error

/-- The conversion `uint16(n)` of an `int`. -/
def toUint16 (n : Int) : Nat := (n % 65536).toNat

/-! ## pfrule.go -/

/-- PFRule represents a port forwarding rule.  A nil `net.IP` is `none`;
`PFProto` is a string type. -/
structure PFRule where
  Proto : GoString
  HostIP : Option IP
  HostPort : Nat
  GuestIP : Option IP
  GuestPort : Nat
  deriving DecidableEq, Repr, Inhabited

/-- The zero value `PFRule{}`. -/
def PFRule.zero : PFRule := ⟨[], none, 0, none, 0⟩

/-- Format returns the string needed as a command-line argument to
VBoxManage: `Sprintf("%s,%s,%d,%s,%d", Proto, hostip, HostPort, guestip,
GuestPort)`. -/
def PFRule.Format (lib : GoLib) (r : PFRule) : GoString :=
  let hostip := match r.HostIP with
    | some ip => lib.IPString ip
    | none => []
  let guestip := match r.GuestIP with
    | some ip => lib.IPString ip
    | none => []
  joinComma [r.Proto, hostip, fmtD r.HostPort, guestip, fmtD r.GuestPort]

/-- Modelled from the spec: the type `Machine` is declared in a file that is
not at hand; of its fields the forwarding code reads and writes `PFRules`
only, a possibly-nil `map[string]PFRule` keyed by rule name. -/
structure Machine where
  PFRules : Option (GoMap PFRule)
  deriving DecidableEq

/-- The Go function `badForwarding(msg, key, value)`: the text of the error
`fmt.Errorf("Bad Forwarding entry: %s (%s=%s)", msg, key, value)`. -/
def badForwarding (msg key value : GoString) : GoString :=
  "Bad Forwarding entry: ".toList ++ msg ++ " (".toList ++ key ++ "=".toList
    ++ value ++ ")".toList

/-- The Go function `getIP`: the empty string is the nil address; any other
string must be one `net.ParseIP` accepts, or the error is `Bad IP`. -/
def getIP (lib : GoLib) (s : GoString) : Except GoString (Option IP) :=
  if s = [] then .ok none
  else
    match lib.ParseIP s with
    | none => .error "Bad IP".toList
    | some n => .ok (some n)

/-- The method `(*Machine).parseForwarading(key, value)`.  The result is
the machine after the call and the text of the returned error, `none` for a
nil error. -/
def Machine.parseForwarading (lib : GoLib) (m : Machine) (key value : GoString) :
    Machine × Option GoString :=
  if !HasPrefix key "Forwarding(".toList then (m, none)
  else
    let vals := splitComma value
    if vals.length ≠ 6 then
      (m, some (badForwarding key value "wrong number of parameters".toList))
    else
      match getIP lib (vals.getD 2 []) with
      | .error err => (m, some (badForwarding err key value))
      | .ok hostip =>
        match Atoi (vals.getD 3 []) with
        | .error err =>
          (m, some (badForwarding (atoiErrorText lib (vals.getD 3 []) err) key value))
        | .ok hostport =>
          match getIP lib (vals.getD 4 []) with
          | .error err => (m, some (badForwarding err key value))
          | .ok guestip =>
            match Atoi (vals.getD 5 []) with
            | .error err =>
              (m, some (badForwarding (atoiErrorText lib (vals.getD 5 []) err) key value))
            | .ok guestport =>
              let rules := match m.PFRules with
                | none => GoMap.empty
                | some rules => rules
              ({ m with PFRules := some (rules.set (vals.getD 0 [])
                  { Proto := vals.getD 1 [], HostIP := hostip, HostPort := toUint16 hostport,
                    GuestIP := guestip, GuestPort := toUint16 guestport }) }, none)

/-- The entries a `range` over the possibly-nil map `m.PFRules` visits. -/
def Machine.rules (m : Machine) : List (GoString × PFRule) :=
  match m.PFRules with
  | none => []
  | some rules => rules.entries

/-- The method `(*Machine).GetPFRUle(name, guestPort)`: a rule by name or
by guest port, with `true` on success.  `order` is the order in which the
`range` loop visits `m.PFRules`. -/
def Machine.GetPFRUle (m : Machine) (order : List (GoString × PFRule))
    (name : GoString) (guestPort : Nat) : PFRule × Bool :=
  match m.PFRules with
  | none => (PFRule.zero, false)
  | some rules =>
    match (if name ≠ [] then rules.get name else none) with
    | some r => (r, true)
    | none =>
      if guestPort > 0 then
        match order.find? (fun e => e.2.GuestPort == guestPort) with
        | some e => (e.2, true)
        | none => (PFRule.zero, false)
      else (PFRule.zero, false)

/-- An instance of `GoLib` to evaluate examples with: `ParseIP` reads the
dotted-quad addresses `a.b.c.d` with single-digit parts, `IPString` prints
them back, `Quote` wraps plain text in double quotes. -/
def sampleLib : GoLib where
  ParseIP s :=
    match s with
    | [a, '.', b, '.', c, '.', d] =>
      if a.isDigit ∧ b.isDigit ∧ c.isDigit ∧ d.isDigit then
        some ([0, 0, 0, 0, 0, 0, 0, 0, 0, 0, 255, 255] ++
          [a.toNat - 48, b.toNat - 48, c.toNat - 48, d.toNat - 48])
      else none
    | _ => none
  IPString ip :=
    match ip with
    | [0, 0, 0, 0, 0, 0, 0, 0, 0, 0, 255, 255, a, b, c, d] =>
      fmtD a ++ '.' :: fmtD b ++ '.' :: fmtD c ++ '.' :: fmtD d
    | _ => "?".toList
  Quote s := '"' :: s ++ ['"']

/-! ## Regular expressions -/

/-- What is left of `s` after the literal `pat` at its start, `none` when
`s` does not start with `pat`. -/
def stripLit (pat : GoString) (s : GoString) : Option GoString :=
  match pat, s with
  | [], s => some s
  | _ :: _, [] => none
  | p :: ps, c :: cs => if p = c then stripLit ps cs else none

/-- The leftmost occurrence of the literal `pat` in a text: what follows it,
`none` when `pat` does not occur. -/
def findAfter (pat : GoString) : GoString → Option GoString
  | [] => stripLit pat []
  | c :: cs =>
    match stripLit pat (c :: cs) with
    | some rest => some rest
    | none => findAfter pat cs

/-- The decimal digits, the class `[0-9]`. -/
def isDecimal (c : Char) : Bool := '0' ≤ c && c ≤ '9'

/-! ## sfolder.go -/

/-- SharedFolder represent a single shared folder. -/
structure SharedFolder where
  Name : GoString
  Path : GoString
  deriving DecidableEq, Repr, Inhabited

/-- The type `SharedFolders`: a possibly-nil map of folders.  The map holds
pointers, each made by `parseProperty` and stored under one key only, so
the record itself stands for the pointer. -/
structure SharedFolders where
  folders : Option (GoMap SharedFolder)
  deriving DecidableEq

/-- A match of the pattern
`SharedFolder(Name|Path)(Machine|Transient)Mapping([0-9]+)$` that starts at
the start of `s`: its three groups. -/
def reSharedFolderAt (s : GoString) : Option (GoString × GoString × GoString) :=
  match stripLit "SharedFolder".toList s with
  | none => none
  | some s1 =>
    let field :=
      match stripLit "Name".toList s1 with
      | some s2 => some ("Name".toList, s2)
      | none =>
        match stripLit "Path".toList s1 with
        | some s2 => some ("Path".toList, s2)
        | none => none
    match field with
    | none => none
    | some (action, s2) =>
      let scope :=
        match stripLit "Machine".toList s2 with
        | some s3 => some ("Machine".toList, s3)
        | none =>
          match stripLit "Transient".toList s2 with
          | some s3 => some ("Transient".toList, s3)
          | none => none
      match scope with
      | none => none
      | some (sc, s3) =>
        match stripLit "Mapping".toList s3 with
        | none => none
        | some digits =>
          if digits ≠ [] ∧ digits.all isDecimal = true then some (action, sc, digits)
          else none

/-- The call `reSharedFolder.FindStringSubmatch(key)`: the groups of the
leftmost match, `none` when the pattern matches nowhere. -/
def reSharedFolder : GoString → Option (GoString × GoString × GoString)
  | [] => reSharedFolderAt []
  | c :: cs =>
    match reSharedFolderAt (c :: cs) with
    | some groups => some groups
    | none => reSharedFolder cs

/-- The method `(*SharedFolders).parseProperty(key, value)`.  The result is
the receiver after the call and the text of the returned error, `none` for
a nil error. -/
def SharedFolders.parseProperty (s : SharedFolders) (key value : GoString) :
    SharedFolders × Option GoString :=
  if !HasPrefix key "SharedFolder".toList then (s, none)
  else
    match reSharedFolder key with
    | none => (s, some ("Bad property: ".toList ++ key))
    | some (action, scope, index) =>
      let folders := match s.folders with
        | none => GoMap.empty
        | some folders => folders
      let id := scope ++ index
      let (sf, folders) := match folders.get id with
        | some sf => (sf, folders)
        | none => (⟨[], []⟩, folders.set id ⟨[], []⟩)
      if action = "Name".toList then
        (⟨some (folders.set id { sf with Name := value })⟩, none)
      else if action = "Path".toList then
        (⟨some (folders.set id { sf with Path := value })⟩, none)
      else (⟨some folders⟩, some ("Bad property: ".toList ++ key))

/-- The entries a `range` over the possibly-nil map `s.folders` visits. -/
def SharedFolders.entries (s : SharedFolders) : List (GoString × SharedFolder) :=
  match s.folders with
  | none => []
  | some folders => folders.entries

/-- The read `s.folders[id]`: `none` when the map is nil or has no entry
for `id`. -/
def SharedFolders.lookup (s : SharedFolders) (id : GoString) : Option SharedFolder :=
  match s.folders with
  | none => none
  | some folders => folders.get id

/-- A sequence of calls of `parseProperty` on one receiver, one for each
pair of a key and a value, in their order; the returned errors are dropped. -/
def SharedFolders.parseLines (s : SharedFolders) : List (GoString × GoString) → SharedFolders
  | [] => s
  | line :: rest => SharedFolders.parseLines (s.parseProperty line.1 line.2).1 rest

/-- A line that `parseProperty` accepts as the field `field` of the record
with the identifier `id`: its key has the prefix `SharedFolder`, the pattern
matches with `field` as first group and the two other groups make `id`. -/
def acceptedLine (field id : GoString) (line : GoString × GoString) : Prop :=
  HasPrefix line.1 "SharedFolder".toList = true ∧
    ∃ scope index, reSharedFolder line.1 = some (field, scope, index) ∧ scope ++ index = id

/-- The assignment `sf.Name = value` or `sf.Path = value` of the `switch`
in `parseProperty`, for an action that is `Name` or `Path`. -/
def SharedFolder.assign (sf : SharedFolder) (action value : GoString) : SharedFolder :=
  if action = "Name".toList then { sf with Name := value } else { sf with Path := value }

/-- The method `(*SharedFolders).List()`.  The receiver may be the nil
pointer, `none`; the result is `none` for a nil slice.  `order` is the order
in which the `range` loop visits `s.folders`. -/
def SharedFolders.List (s : Option SharedFolders) (order : List (GoString × SharedFolder)) :
    Option (List SharedFolder) :=
  match s with
  | none => none
  | some s =>
    match s.folders with
    | none => none
    | some folders =>
      if folders.len = 0 then none
      else some (order.map (fun e => e.2))

/-! ## vbm.go -/

/-- The error variables: `ErrMachineExist`, `ErrMachineNotExist` and
`ErrVBMNotFound` of this package and `ErrNotFound` of `os/exec`.  Each is
one `errors.New` value made when the program starts. -/
inductive ErrVar where
  | ErrMachineExist
  | ErrMachineNotExist
  | ErrVBMNotFound
  | ErrNotFound
  deriving DecidableEq, Repr

/-- A non-nil value of the interface `error`. -/
inductive GoErr where
  /-- The value of an error variable. -/
  | var (v : ErrVar)
  /-- A value `errors.New(text)` made during the call. -/
  | errorsNew (text : GoString)
  /-- A `*exec.Error` with its fields `Name` and `Err`. -/
  | execError (Name : GoString) (Err : GoErr)
  /-- A `*exec.ExitError`; `state` is the text of its `ProcessState`. -/
  | exitError (state : GoString)
  /-- An error of any other type, with its text. -/
  | other (text : GoString)
  deriving DecidableEq, Repr

/-- The dynamic types of the errors. -/
inductive ErrType where
  | errorString
  | execError
  | exitError
  | other
  deriving DecidableEq, Repr

/-- The dynamic type of an error value. -/
def GoErr.dynType : GoErr → ErrType
  | .var _ => .errorString
  | .errorsNew _ => .errorString
  | .execError _ _ => .execError
  | .exitError _ => .exitError
  | .other _ => .other

/-- The comparison `a == b` of two interface values: the same dynamic type
and the same value. -/
def GoErr.ifaceEq (a b : GoErr) : Bool :=
  a.dynType == b.dynType && a == b

/-- The method `Error()`. -/
def GoErr.Error (lib : GoLib) : GoErr → GoString
  | .var .ErrMachineExist => "machine already exists".toList
  | .var .ErrMachineNotExist => "machine does not exist".toList
  | .var .ErrVBMNotFound => "VBoxManage not found".toList
  | .var .ErrNotFound => "executable file not found in $PATH".toList
  | .errorsNew text => text
  | .execError name err => "exec: ".toList ++ lib.Quote name ++ ": ".toList ++ err.Error lib
  | .exitError state => state
  | .other text => text

/-- The package variables `Verbose`, `Log`, `LogOut` and `LogErr`; a nil
function is `none`.  What a hook does with its message is outside the
program. -/
structure Hooks where
  Verbose : Bool
  Log : Option (GoString → Unit)
  LogOut : Option (GoString → Unit)
  LogErr : Option (GoString → Unit)

/-- A run-time panic. -/
inductive Panic where
  /-- The call of a nil function value. -/
  | nilFuncCall
  deriving DecidableEq, Repr

/-- The function `LogMessage`, called with the formatted message. -/
def LogMessage (h : Hooks) (msg : GoString) : Except Panic Unit :=
  match h.Log with
  | some log => .ok (log msg)
  | none => if h.Verbose then .ok () else .ok ()

/-- The function `logOut`. -/
def logOut (h : Hooks) (msg : GoString) : Except Panic Unit :=
  if msg = [] then .ok ()
  else
    match h.LogOut with
    | some f => .ok (f msg)
    | none =>
      match h.Log with
      | some log => .ok (log ("StdOut: ".toList ++ msg))
      | none => if h.Verbose then .ok () else .ok ()

/-- The function `logErr`.  Its second case tests `LogOut` and calls
`LogErr`. -/
def logErr (h : Hooks) (msg : GoString) : Except Panic Unit :=
  if msg = [] then .ok ()
  else
    match h.LogOut with
    | some _ =>
      match h.LogErr with
      | some f => .ok (f msg)
      | none => .error .nilFuncCall
    | none =>
      match h.Log with
      | some log => .ok (log ("StdErr: ".toList ++ msg))
      | none => if h.Verbose then .ok () else .ok ()

/-- What `cmd.Run()` leaves behind: the two buffers and the error. -/
structure CmdResult where
  stdout : GoString
  stderr : GoString
  err : Option GoErr

/-- The marker of the pattern `reErrorMessage`. -/
def errorMarker : GoString := "VBoxManage: error: ".toList

/-- The call `reErrorMessage.FindStringSubmatch(s)` for the pattern
`VBoxManage: error: (.*)`: group 1 of the leftmost match, which runs up to
the next newline or the end. -/
def reErrorMessage (s : GoString) : Option GoString :=
  match findAfter errorMarker s with
  | none => none
  | some rest => some (rest.takeWhile (fun c => c != '\n'))

/-- The Go function `strings.Join(args, " ")`. -/
def joinSpace : List GoString → GoString
  | [] => []
  | [a] => a
  | a :: b :: rest => a ++ ' ' :: joinSpace (b :: rest)

/-- The function `vbmOutErr(args...)`, given what running the command `VBM`
with `args` produced. -/
def vbmOutErr (lib : GoLib) (h : Hooks) (VBM : GoString) (args : List GoString)
    (run : CmdResult) : Except Panic (GoString × GoString × Option GoErr) := do
  LogMessage h ("executing: ".toList ++ VBM ++ ' ' :: joinSpace args)
  match run.err with
  | some e => LogMessage h ("Error: ".toList ++ e.Error lib)
  | none => pure ()
  logOut h run.stdout
  logErr h run.stderr
  let err :=
    match run.err with
    | none => none
    | some e =>
      let e1 : GoErr :=
        match e with
        | .execError _ _ =>
          if e.ifaceEq (.var .ErrNotFound) then GoErr.var .ErrVBMNotFound else e
        | _ => e
      let e2 : GoErr :=
        match e1 with
        | .exitError _ =>
          match reErrorMessage run.stderr with
          | some res1 => GoErr.errorsNew res1
          | none => e1
        | _ => e1
      some e2
  return (run.stdout, run.stderr, err)

/-- The class `\s` of the patterns: tab, newline, form feed, carriage
return and space. -/
def isSpace (c : Char) : Bool :=
  c == '\t' || c == '\n' || c == '\x0c' || c == '\r' || c == ' '

/-- A greedy `.*` before the rest of a pattern: the longest run of
characters other than newline after which `rest` matches, with what `rest`
gives. -/
def dotStar {α : Type} (rest : GoString → Option α) : GoString → Option (GoString × α)
  | [] => (rest []).map (fun a => ([], a))
  | c :: cs =>
    match (if c ≠ '\n' then dotStar rest cs else none) with
    | some (x, a) => some (c :: x, a)
    | none => (rest (c :: cs)).map (fun a => ([], a))

/-- A greedy `.+` before the rest of a pattern. -/
def dotPlus {α : Type} (rest : GoString → Option α) : GoString → Option (GoString × α)
  | [] => none
  | c :: cs =>
    if c ≠ '\n' then (dotStar rest cs).map (fun r => (c :: r.1, r.2)) else none

/-- A greedy `\s*` before the rest of a pattern. -/
def spaceStar {α : Type} (rest : GoString → Option α) : GoString → Option α
  | [] => rest []
  | c :: cs =>
    match (if isSpace c then spaceStar rest cs else none) with
    | some a => some a
    | none => rest (c :: cs)

/-- A greedy `\s+` before the rest of a pattern. -/
def spacePlus {α : Type} (rest : GoString → Option α) : GoString → Option α
  | [] => none
  | c :: cs => if isSpace c then spaceStar rest cs else none

/-- The leftmost place of a text at which a pattern matches, with what the
match gives: the search of `FindStringSubmatch`. -/
def findLeftmost {α : Type} (pattern : GoString → Option α) : GoString → Option α
  | [] => pattern []
  | c :: cs =>
    match pattern (c :: cs) with
    | some a => some a
    | none => findLeftmost pattern cs

/-- The second half `(?:"(.*)"|(.*))` of the pattern `reVMInfoLine` at the
start of `t`: the groups 3 and 4, the one that takes no part being empty. -/
def reVMInfoValue (t : GoString) : Option (GoString × GoString) :=
  let quoted :=
    match stripLit ['"'] t with
    | some r => dotStar (fun r' => (stripLit ['"'] r').map (fun _ => ())) r
    | none => none
  match quoted with
  | some (x, _) => some (x, [])
  | none => (dotStar (fun _ => some ()) t).map (fun r => ([], r.1))

/-- A match of the pattern `(?:"(.+)"|(.+))=(?:"(.*)"|(.*))` that starts at
the start of `t`: its four groups, those that take no part being empty. -/
def reVMInfoLineAt (t : GoString) : Option (GoString × GoString × GoString × GoString) :=
  let quoted :=
    match stripLit ['"'] t with
    | some r => dotPlus (fun r' => (stripLit ['"', '='] r').bind reVMInfoValue) r
    | none => none
  match quoted with
  | some (x, g3, g4) => some (x, [], g3, g4)
  | none =>
    (dotPlus (fun r' => (stripLit ['='] r').bind reVMInfoValue) t).map
      (fun r => ([], r.1, r.2.1, r.2.2))

/-- The call `reVMInfoLine.FindStringSubmatch(s)`: the four groups of the
leftmost match. -/
def reVMInfoLine (s : GoString) : Option (GoString × GoString × GoString × GoString) :=
  findLeftmost reVMInfoLineAt s

/-- A match of the pattern `(.+):\s+(.*)` that starts at the start of `t`:
its two groups. -/
def reColonLineAt (t : GoString) : Option (GoString × GoString) :=
  dotPlus (fun r =>
    (stripLit [':'] r).bind
      (spacePlus (fun r' => (dotStar (fun _ => some ()) r').map (fun g => g.1)))) t

/-- The call `reColonLine.FindStringSubmatch(s)`: the two groups of the
leftmost match. -/
def reColonLine (s : GoString) : Option (GoString × GoString) :=
  findLeftmost reColonLineAt s

/-! ## Strings and maps: lemmas -/

theorem splitComma_ne_nil (s : GoString) : splitComma s ≠ [] := by
  cases s with
  | nil => simp [splitComma]
  | cons c cs =>
    unfold splitComma
    split
    · simp
    · split <;> simp

theorem joinComma_splitComma (s : GoString) : joinComma (splitComma s) = s := by
  induction s with
  | nil => rfl
  | cons c cs ih =>
    unfold splitComma
    by_cases hc : c = ','
    · simp only [hc, if_true]
      cases hs : splitComma cs with
      | nil => exact absurd hs (splitComma_ne_nil cs)
      | cons f fs => rw [hs] at ih; simp only [joinComma, List.nil_append, ih]
    · simp only [hc, if_false]
      cases hs : splitComma cs with
      | nil => exact absurd hs (splitComma_ne_nil cs)
      | cons f fs =>
        rw [hs] at ih
        cases fs with
        | nil => simp only [joinComma] at ih ⊢; rw [ih]
        | cons g gs => simp only [joinComma, List.cons_append] at ih ⊢; rw [ih]

theorem splitComma_no_comma (f : GoString) (hf : ',' ∉ f) : splitComma f = [f] := by
  induction f with
  | nil => rfl
  | cons c cs ih =>
    have hc : c ≠ ',' := fun h => hf (by simp [h])
    have hcs : ',' ∉ cs := fun h => hf (List.mem_cons_of_mem _ h)
    simp only [splitComma, hc, if_false, ih hcs]

theorem splitComma_field (f rest : GoString) (hf : ',' ∉ f) :
    splitComma (f ++ ',' :: rest) = f :: splitComma rest := by
  induction f with
  | nil => simp only [List.nil_append, splitComma, if_true]
  | cons c cs ih =>
    have hc : c ≠ ',' := fun h => hf (by simp [h])
    have hcs : ',' ∉ cs := fun h => hf (List.mem_cons_of_mem _ h)
    simp only [List.cons_append, splitComma, hc, if_false, List.append_eq, ih hcs]

/-- Six texts without a comma, joined by commas, are the six fields of the
joined text. -/
theorem splitComma_joinComma_six (a b c d e f : GoString) (ha : ',' ∉ a) (hb : ',' ∉ b)
    (hc : ',' ∉ c) (hd : ',' ∉ d) (he : ',' ∉ e) (hf : ',' ∉ f) :
    splitComma (joinComma [a, b, c, d, e, f]) = [a, b, c, d, e, f] := by
  simp only [joinComma, splitComma_field _ _ ha, splitComma_field _ _ hb,
    splitComma_field _ _ hc, splitComma_field _ _ hd, splitComma_field _ _ he,
    splitComma_no_comma f hf]

theorem stripLit_append (pat rest : GoString) : stripLit pat (pat ++ rest) = some rest := by
  induction pat with
  | nil => cases rest <;> rfl
  | cons p ps ih => simpa [stripLit] using ih

theorem stripLit_eq_some {pat s rest : GoString} (h : stripLit pat s = some rest) :
    s = pat ++ rest := by
  induction pat generalizing s with
  | nil =>
    cases s <;> simp only [stripLit, Option.some.injEq] at h <;> simp [h]
  | cons p ps ih =>
    cases s with
    | nil => simp [stripLit] at h
    | cons c cs =>
      simp only [stripLit] at h
      by_cases hpc : p = c
      · simp only [hpc, if_true] at h
        rw [ih h, hpc]; rfl
      · simp [hpc] at h

theorem HasPrefix_append (pat rest : GoString) : HasPrefix (pat ++ rest) pat = true := by
  induction pat with
  | nil => cases rest <;> rfl
  | cons p ps ih => simpa [HasPrefix] using ih

namespace GoMap

variable {V : Type}

theorem lookupIn_storeIn_self (k : GoString) (v : V) (l : List (GoString × V)) :
    lookupIn k (storeIn k v l) = some v := by
  induction l with
  | nil => simp [storeIn, lookupIn]
  | cons e t ih =>
    obtain ⟨k', v'⟩ := e
    by_cases h : k' = k
    · simp [storeIn, lookupIn, h]
    · simp [storeIn, lookupIn, h, ih]

theorem lookupIn_storeIn_ne {k k2 : GoString} (v : V) (l : List (GoString × V)) (hne : k2 ≠ k) :
    lookupIn k2 (storeIn k v l) = lookupIn k2 l := by
  induction l with
  | nil =>
    have : ¬ k = k2 := fun x => hne x.symm
    simp [storeIn, lookupIn, this]
  | cons e t ih =>
    obtain ⟨k', v'⟩ := e
    by_cases h : k' = k
    · subst h
      have : ¬ k' = k2 := fun x => hne x.symm
      simp [storeIn, lookupIn, this]
    · by_cases h2 : k' = k2
      · subst h2
        simp [storeIn, lookupIn, h]
      · simp [storeIn, lookupIn, h, h2, ih]

theorem get_set_self (m : GoMap V) (k : GoString) (v : V) : (m.set k v).get k = some v :=
  lookupIn_storeIn_self k v m.entries

theorem get_set_ne (m : GoMap V) {k k2 : GoString} (v : V) (hne : k2 ≠ k) :
    (m.set k v).get k2 = m.get k2 :=
  lookupIn_storeIn_ne v m.entries hne

theorem mem_of_lookupIn {k : GoString} {v : V} {l : List (GoString × V)}
    (h : lookupIn k l = some v) : (k, v) ∈ l := by
  induction l with
  | nil => simp [lookupIn] at h
  | cons e t ih =>
    obtain ⟨k', v'⟩ := e
    by_cases hk : k' = k
    · simp only [lookupIn, hk, if_true, Option.some.injEq] at h
      simp [hk, h]
    · simp only [lookupIn, hk, if_false] at h
      exact List.mem_cons_of_mem _ (ih h)

theorem lookupIn_of_mem {k : GoString} {v : V} {l : List (GoString × V)}
    (hnd : (l.map Prod.fst).Nodup) (h : (k, v) ∈ l) : lookupIn k l = some v := by
  induction l with
  | nil => simp at h
  | cons e t ih =>
    obtain ⟨k', v'⟩ := e
    simp only [List.map_cons, List.nodup_cons] at hnd
    rcases List.mem_cons.mp h with heq | hmem
    · simp only [Prod.mk.injEq] at heq
      simp [lookupIn, heq.1, heq.2]
    · have hk : k' ≠ k := by
        intro hk
        apply hnd.1
        rw [hk]
        exact List.mem_map.mpr ⟨(k, v), hmem, rfl⟩
      simp only [lookupIn, hk, if_false]
      exact ih hnd.2 hmem

/-- A key has an entry with a value exactly when reading it gives that value. -/
theorem get_eq_some_iff (m : GoMap V) (k : GoString) (v : V) :
    m.get k = some v ↔ (k, v) ∈ m.entries :=
  ⟨mem_of_lookupIn, lookupIn_of_mem m.nodup⟩

end GoMap

/-! ## Decimal numbers: lemmas -/

theorem digitChar_decimal (k : Nat) (hk : k < 10) :
    '0' ≤ Nat.digitChar k ∧ Nat.digitChar k ≤ '9' ∧
      (Nat.digitChar k).toNat - '0'.toNat = k ∧
      Nat.digitChar k ≠ '+' ∧ Nat.digitChar k ≠ '-' := by
  interval_cases k <;> decide

theorem parseUintLoop_toDigitsCore (fuel n : Nat) (ds : GoString)
    (hfuel : n < fuel) (hn : n < 2 ^ 64) :
    parseUintLoop 0 (Nat.toDigitsCore 10 fuel n ds) = parseUintLoop n ds := by
  induction fuel generalizing n ds with
  | zero => omega
  | succ fuel ih =>
    have hd := digitChar_decimal (n % 10) (Nat.mod_lt _ (by decide))
    have step : ∀ a, a = n / 10 → parseUintLoop a (Nat.digitChar (n % 10) :: ds) =
        parseUintLoop n ds := by
      intro a ha
      have h1 : ¬ a ≥ (2 ^ 64 - 1) / 10 + 1 := by omega
      have h2 : ¬ a * 10 + n % 10 > 2 ^ 64 - 1 := by omega
      have h3 : a * 10 + n % 10 = n := by omega
      have h4 : ¬ n > 2 ^ 64 - 1 := by omega
      simp only [parseUintLoop, hd.1, hd.2.1, and_self, if_true, h1, if_false, hd.2.2.1, h3, h4]
    simp only [Nat.toDigitsCore]
    by_cases h0 : n / 10 = 0
    · simp only [h0, if_true]
      exact step 0 h0.symm
    · simp only [h0, if_false]
      rw [ih (n / 10) _ (by omega) (by omega)]
      exact step (n / 10) rfl

theorem toDigitsCore_head (fuel n : Nat) (ds : GoString) (hfuel : 0 < fuel)
    (hds : ∀ c cs, ds = c :: cs → c ≠ '+' ∧ c ≠ '-') :
    ∃ c cs, Nat.toDigitsCore 10 fuel n ds = c :: cs ∧ c ≠ '+' ∧ c ≠ '-' := by
  induction fuel generalizing n ds with
  | zero => omega
  | succ fuel ih =>
    have hd := digitChar_decimal (n % 10) (Nat.mod_lt _ (by decide))
    simp only [Nat.toDigitsCore]
    by_cases h0 : n / 10 = 0
    · simp only [h0, if_true]
      exact ⟨_, _, rfl, hd.2.2.2⟩
    · simp only [h0, if_false]
      cases fuel with
      | zero => simp only [Nat.toDigitsCore]; exact ⟨_, _, rfl, hd.2.2.2⟩
      | succ fuel =>
        apply ih _ _ (Nat.succ_pos _)
        intro c cs hc
        simp only [List.cons.injEq] at hc
        rw [← hc.1]
        exact hd.2.2.2

/-- The function `Atoi` reads a number printed by `%d` back. -/
theorem Atoi_fmtD (n : Nat) (hn : n < 2 ^ 63) : Atoi (fmtD n) = .ok (n : Int) := by
  obtain ⟨c, cs, hcs, hplus, hminus⟩ :=
    toDigitsCore_head (n + 1) n [] (Nat.succ_pos _) (by intro c cs h; cases h)
  have hparse : parseUintLoop 0 (c :: cs) = .ok n := by
    rw [← hcs, parseUintLoop_toDigitsCore (n + 1) n [] (by omega) (by omega)]
    rfl
  have hneg : (c == '-') = false := by simpa using hminus
  have hcut : ¬ n ≥ 2 ^ (intSize - 1) := by simp only [intSize]; omega
  simp only [fmtD, Nat.toDigits, hcs, Atoi, hplus, hminus, or_self, if_false, hparse, hneg,
    Bool.not_false, Bool.true_and, decide_eq_true_eq, hcut, Bool.false_and, Bool.false_eq_true]

theorem toUint16_natCast (n : Nat) (hn : n < 65536) : toUint16 (n : Int) = n := by
  unfold toUint16
  omega

/-! ## pfrule.go: lemmas -/

/-- The machine after a value with six fields, two readable addresses and
two readable ports. -/
theorem parseForwarading_accepts (lib : GoLib) (m : Machine) (key value : GoString)
    (v0 v1 v2 v3 v4 v5 : GoString) (hostip guestip : Option IP) (hostport guestport : Int)
    (hkey : HasPrefix key "Forwarding(".toList = true)
    (hvals : splitComma value = [v0, v1, v2, v3, v4, v5])
    (h2 : getIP lib v2 = .ok hostip) (h3 : Atoi v3 = .ok hostport)
    (h4 : getIP lib v4 = .ok guestip) (h5 : Atoi v5 = .ok guestport) :
    m.parseForwarading lib key value =
      (⟨some ((match m.PFRules with
          | none => GoMap.empty
          | some rules => rules).set v0
            ⟨v1, hostip, toUint16 hostport, guestip, toUint16 guestport⟩)⟩, none) := by
  simp only [Machine.parseForwarading, hkey, hvals, Bool.not_true, Bool.false_eq_true, if_false,
    List.length_cons, List.length_nil, List.getD_cons_zero, List.getD_cons_succ, h2, h3, h4, h5,
    ne_eq, not_true_eq_false]

theorem getIP_empty (lib : GoLib) : getIP lib [] = .ok none := by
  simp [getIP]

theorem getIP_parsed (lib : GoLib) (s : GoString) (ip : IP) (h : lib.ParseIP s = some ip)
    (hs : s ≠ []) : getIP lib s = .ok (some ip) := by
  simp [getIP, hs, h]

theorem getIP_canonical (lib : GoLib) (s : GoString)
    (h : s = [] ∨ ∃ ip, lib.ParseIP s = some ip ∧ lib.IPString ip = s) :
    ∃ o, getIP lib s = .ok o ∧
      (match o with
        | some ip => lib.IPString ip
        | none => []) = s := by
  by_cases hs : s = []
  · exact ⟨none, by rw [hs]; exact getIP_empty lib, hs.symm⟩
  · rcases h with h | ⟨ip, hp, hstr⟩
    · exact absurd h hs
    · exact ⟨some ip, getIP_parsed lib s ip hp hs, hstr⟩

theorem getIP_ok_empty (lib : GoLib) (o : Option IP) (h : getIP lib [] = .ok o) : o = none := by
  rw [getIP_empty] at h
  cases h
  rfl

/-! ## pfrule.go: the claims -/

/-- C1, as stated, fails: the value `rule1,tcp,,80,,8080` is accepted, and
`Format` of the rule stored under `rule1` is `tcp,,80,,8080`, which has
five fields and is not the value. -/
theorem Format_omits_rule_name :
    (Machine.parseForwarading sampleLib ⟨none⟩ "Forwarding(0)".toList
        "rule1,tcp,,80,,8080".toList).2 = none ∧
      (Machine.parseForwarading sampleLib ⟨none⟩ "Forwarding(0)".toList
        "rule1,tcp,,80,,8080".toList).1.rules.map (fun e => (e.1, e.2.Format sampleLib))
        = [("rule1".toList, "tcp,,80,,8080".toList)] ∧
      (splitComma "tcp,,80,,8080".toList).length = 5 ∧
      "tcp,,80,,8080".toList ≠ "rule1,tcp,,80,,8080".toList := by
  decide

/-- C1, amended: a value with the six fields name, proto, hostIP, hostPort,
guestIP, guestPort, whose address fields are empty or in the form
`IP.String` prints and whose port fields are the decimal form of numbers
below 65536, is accepted; `Format` of the rule stored under the name is the
last five fields joined by commas, and the name, a comma and that text are
the value again. -/
theorem parseForwarading_Format_roundtrip (lib : GoLib) (m : Machine) (key value : GoString)
    (name proto hostip guestip : GoString) (hostport guestport : Nat)
    (hkey : HasPrefix key "Forwarding(".toList = true)
    (hvals : splitComma value = [name, proto, hostip, fmtD hostport, guestip, fmtD guestport])
    (hhost : hostip = [] ∨ ∃ ip, lib.ParseIP hostip = some ip ∧ lib.IPString ip = hostip)
    (hguest : guestip = [] ∨ ∃ ip, lib.ParseIP guestip = some ip ∧ lib.IPString ip = guestip)
    (hhp : hostport < 65536) (hgp : guestport < 65536) :
    (m.parseForwarading lib key value).2 = none ∧
      ∃ rules r, (m.parseForwarading lib key value).1.PFRules = some rules ∧
        rules.get name = some r ∧
        r.Format lib = joinComma [proto, hostip, fmtD hostport, guestip, fmtD guestport] ∧
        name ++ ',' :: r.Format lib = value := by
  obtain ⟨hi, hgetH, htextH⟩ := getIP_canonical lib hostip hhost
  obtain ⟨gi, hgetG, htextG⟩ := getIP_canonical lib guestip hguest
  have hfmt : PFRule.Format lib ⟨proto, hi, toUint16 hostport, gi, toUint16 guestport⟩ =
      joinComma [proto, hostip, fmtD hostport, guestip, fmtD guestport] := by
    simp only [PFRule.Format, htextH, htextG, toUint16_natCast hostport hhp,
      toUint16_natCast guestport hgp]
  rw [parseForwarading_accepts lib m key value _ _ _ _ _ _ hi gi hostport guestport hkey hvals
    hgetH (Atoi_fmtD hostport (by omega)) hgetG (Atoi_fmtD guestport (by omega))]
  refine ⟨rfl, _, _, rfl, GoMap.get_set_self _ _ _, hfmt, ?_⟩
  rw [hfmt]
  conv_rhs => rw [← joinComma_splitComma value, hvals]
  rfl

theorem parseForwarading_Format_roundtrip_witness :
    (Machine.parseForwarading sampleLib ⟨none⟩ "Forwarding(0)".toList
        "rule1,tcp,,80,1.2.3.4,8080".toList).2 = none ∧
      ∃ rules r, (Machine.parseForwarading sampleLib ⟨none⟩ "Forwarding(0)".toList
          "rule1,tcp,,80,1.2.3.4,8080".toList).1.PFRules = some rules ∧
        rules.get "rule1".toList = some r ∧
        r.Format sampleLib =
          joinComma ["tcp".toList, [], fmtD 80, "1.2.3.4".toList, fmtD 8080] ∧
        "rule1".toList ++ ',' :: r.Format sampleLib = "rule1,tcp,,80,1.2.3.4,8080".toList :=
  parseForwarading_Format_roundtrip sampleLib ⟨none⟩ "Forwarding(0)".toList
    "rule1,tcp,,80,1.2.3.4,8080".toList "rule1".toList "tcp".toList [] "1.2.3.4".toList 80 8080
    (by decide) (by decide) (Or.inl rfl)
    (Or.inr ⟨[0, 0, 0, 0, 0, 0, 0, 0, 0, 0, 255, 255, 1, 2, 3, 4], by decide, by decide⟩)
    (by decide) (by decide)

/-- Port fields in another form than plain decimal below 65536 are accepted
and printed in that form: `+80` comes back as `80` and `65536` as `0`. -/
theorem Format_prints_ports_reduced :
    (Machine.parseForwarading sampleLib ⟨none⟩ "Forwarding(0)".toList
        "rule1,tcp,,+80,,65536".toList).2 = none ∧
      (Machine.parseForwarading sampleLib ⟨none⟩ "Forwarding(0)".toList
        "rule1,tcp,,+80,,65536".toList).1.rules.map (fun e => (e.1, e.2.Format sampleLib))
        = [("rule1".toList, "tcp,,80,,0".toList)] := by
  decide

/-- C5: a key that does not begin with `Forwarding(` makes `parseForwarading`
return nil and leave the machine, its `PFRules` included, as it was; a key
that does not begin with `SharedFolder` makes `parseProperty` return nil and
leave the folders as they were. -/
theorem other_keys_ignored (lib : GoLib) (m : Machine) (s : SharedFolders)
    (key1 value1 key2 value2 : GoString)
    (h1 : HasPrefix key1 "Forwarding(".toList = false)
    (h2 : HasPrefix key2 "SharedFolder".toList = false) :
    m.parseForwarading lib key1 value1 = (m, none) ∧
      s.parseProperty key2 value2 = (s, none) := by
  constructor
  · simp only [Machine.parseForwarading, h1, Bool.not_false, if_true]
  · simp only [SharedFolders.parseProperty, h2, Bool.not_false, if_true]

theorem other_keys_ignored_witness :
    Machine.parseForwarading sampleLib ⟨none⟩ "VMState".toList "rule1,tcp,,80,,8080".toList
        = (⟨none⟩, none) ∧
      SharedFolders.parseProperty ⟨none⟩ "VMState".toList "alpha".toList = (⟨none⟩, none) :=
  other_keys_ignored sampleLib ⟨none⟩ ⟨none⟩ "VMState".toList "rule1,tcp,,80,,8080".toList
    "VMState".toList "alpha".toList (by decide) (by decide)

/-- C6: whenever `parseForwarading` returns an error, `PFRules` after the
call is `PFRules` before the call, a nil map included. -/
theorem parseForwarading_error_keeps_rules (lib : GoLib) (m : Machine) (key value : GoString)
    (herr : (m.parseForwarading lib key value).2 ≠ none) :
    (m.parseForwarading lib key value).1.PFRules = m.PFRules := by
  revert herr
  simp only [Machine.parseForwarading]
  by_cases hkey : (!HasPrefix key "Forwarding(".toList) = true
  · rw [if_pos hkey]
    exact fun _ => rfl
  rw [if_neg hkey]
  by_cases hlen : (splitComma value).length ≠ 6
  · rw [if_pos hlen]
    exact fun _ => rfl
  rw [if_neg hlen]
  cases getIP lib ((splitComma value).getD 2 []) with
  | error e => simp only [implies_true]
  | ok hostip =>
    cases Atoi ((splitComma value).getD 3 []) with
    | error e => simp only [implies_true]
    | ok hostport =>
      cases getIP lib ((splitComma value).getD 4 []) with
      | error e => simp only [implies_true]
      | ok guestip =>
        cases Atoi ((splitComma value).getD 5 []) with
        | error e => simp only [implies_true]
        | ok guestport => intro h; exact absurd rfl h

theorem parseForwarading_error_keeps_rules_witness :
    (Machine.parseForwarading sampleLib ⟨none⟩ "Forwarding(0)".toList
        "rule1,tcp,,abc,,8080".toList).2 ≠ none ∧
      (Machine.parseForwarading sampleLib ⟨none⟩ "Forwarding(0)".toList
        "rule1,tcp,,abc,,8080".toList).1.PFRules = none :=
  ⟨by decide, parseForwarading_error_keeps_rules sampleLib ⟨none⟩ "Forwarding(0)".toList
    "rule1,tcp,,abc,,8080".toList (by decide)⟩

/-- C7: in a value of six fields whose host or guest address field is empty
and whose other fields are accepted, `parseForwarading` returns nil and
stores a rule whose address is nil there, and `Format` of that rule has the
empty text in the place of that address. -/
theorem parseForwarading_absent_address (lib : GoLib) (m : Machine) (key value : GoString)
    (name proto hostip hostport guestip guestport : GoString) (hi gi : Option IP) (hp gp : Int)
    (hkey : HasPrefix key "Forwarding(".toList = true)
    (hvals : splitComma value = [name, proto, hostip, hostport, guestip, guestport])
    (hempty : hostip = [] ∨ guestip = [])
    (h2 : getIP lib hostip = .ok hi) (h3 : Atoi hostport = .ok hp)
    (h4 : getIP lib guestip = .ok gi) (h5 : Atoi guestport = .ok gp) :
    (m.parseForwarading lib key value).2 = none ∧
      ∃ rules r, (m.parseForwarading lib key value).1.PFRules = some rules ∧
        rules.get name = some r ∧
        ∃ hostField guestField,
          r.Format lib =
            joinComma [proto, hostField, fmtD r.HostPort, guestField, fmtD r.GuestPort] ∧
          (hostip = [] → r.HostIP = none ∧ hostField = []) ∧
          (guestip = [] → r.GuestIP = none ∧ guestField = []) := by
  have _ := hempty
  rw [parseForwarading_accepts lib m key value _ _ _ _ _ _ hi gi hp gp hkey hvals h2 h3 h4 h5]
  refine ⟨rfl, _, _, rfl, GoMap.get_set_self _ _ _, _, _, rfl, ?_, ?_⟩
  · intro h
    subst h
    have := getIP_ok_empty lib hi h2
    subst this
    exact ⟨rfl, rfl⟩
  · intro h
    subst h
    have := getIP_ok_empty lib gi h4
    subst this
    exact ⟨rfl, rfl⟩

theorem parseForwarading_absent_address_witness :
    (Machine.parseForwarading sampleLib ⟨none⟩ "Forwarding(0)".toList
        "rule1,tcp,,80,,8080".toList).2 = none ∧
      ∃ rules r, (Machine.parseForwarading sampleLib ⟨none⟩ "Forwarding(0)".toList
          "rule1,tcp,,80,,8080".toList).1.PFRules = some rules ∧
        rules.get "rule1".toList = some r ∧
        ∃ hostField guestField,
          r.Format sampleLib =
            joinComma ["tcp".toList, hostField, fmtD r.HostPort, guestField, fmtD r.GuestPort] ∧
          (([] : GoString) = [] → r.HostIP = none ∧ hostField = []) ∧
          (([] : GoString) = [] → r.GuestIP = none ∧ guestField = []) :=
  parseForwarading_absent_address sampleLib ⟨none⟩ "Forwarding(0)".toList
    "rule1,tcp,,80,,8080".toList "rule1".toList "tcp".toList [] "80".toList [] "8080".toList
    none none 80 8080 (by decide) (by decide) (Or.inl rfl) rfl rfl rfl rfl

theorem GetPFRUle_by_name (m : Machine) (rules : GoMap PFRule)
    (order : List (GoString × PFRule)) (n : GoString) (r : PFRule) (p : Nat)
    (hm : m.PFRules = some rules) (hr : rules.get n = some r) (hn : n ≠ []) :
    m.GetPFRUle order n p = (r, true) := by
  simp only [Machine.GetPFRUle, hm, hn, ne_eq, not_false_eq_true, if_true, hr]

/-- C8: when `PFRules` holds a rule under the non-empty name `n`,
`GetPFRUle(n, p)` returns that rule and true, whatever the port `p`,
whatever the other rules are and in whatever order the map is visited. -/
theorem GetPFRUle_prefers_name (m : Machine) (rules : GoMap PFRule)
    (order : List (GoString × PFRule)) (n : GoString) (r : PFRule) (p : Nat)
    (hm : m.PFRules = some rules) (hr : rules.get n = some r) (hn : n ≠ []) :
    m.GetPFRUle order n p = (r, true) :=
  GetPFRUle_by_name m rules order n r p hm hr hn

theorem GetPFRUle_prefers_name_witness :
    Machine.GetPFRUle
        ⟨some ⟨[("nat1".toList, ⟨"tcp".toList, none, 22, none, 2222⟩),
          ("other".toList, ⟨"udp".toList, none, 53, none, 7⟩)], by decide⟩⟩
        [("other".toList, ⟨"udp".toList, none, 53, none, 7⟩),
          ("nat1".toList, ⟨"tcp".toList, none, 22, none, 2222⟩)] "nat1".toList 7
      = (⟨"tcp".toList, none, 22, none, 2222⟩, true) :=
  GetPFRUle_prefers_name _ _ _ _ _ _ rfl (by decide) (by decide)

theorem GetPFRUle_nil (m : Machine) (order : List (GoString × PFRule)) (name : GoString)
    (p : Nat) (hm : m.PFRules = none) : m.GetPFRUle order name p = (PFRule.zero, false) := by
  simp only [Machine.GetPFRUle, hm]

theorem GetPFRUle_no_name (m : Machine) (rules : GoMap PFRule)
    (order : List (GoString × PFRule)) (name : GoString) (p : Nat)
    (hm : m.PFRules = some rules) (hname : ¬ (name ≠ [] ∧ ∃ r, (name, r) ∈ rules.entries)) :
    m.GetPFRUle order name p =
      if p > 0 then
        match order.find? (fun e => e.2.GuestPort == p) with
        | some e => (e.2, true)
        | none => (PFRule.zero, false)
      else (PFRule.zero, false) := by
  have hnone : (if name ≠ [] then rules.get name else none) = none := by
    by_cases hn : name = []
    · simp [hn]
    · simp only [ne_eq, hn, not_false_eq_true, if_true]
      cases hg : rules.get name with
      | none => rfl
      | some r => exact absurd ⟨hn, r, (GoMap.get_eq_some_iff rules name r).mp hg⟩ hname
  simp only [Machine.GetPFRUle, hm, hnone]

/-- C9: `GetPFRUle(name, guestPort)` reports a rule exactly when the name
is non-empty and has an entry, or the port is positive and some rule has it
as guest port; a reported rule is a value of the map, and has the asked
guest port when the name did not find it; with nothing found the result is
`PFRule{}` and false, as it is for the empty name with port 0 and for a nil
map.  This holds in whatever order the map is visited. -/
theorem GetPFRUle_found_iff (m : Machine) (order : List (GoString × PFRule))
    (name : GoString) (guestPort : Nat) (horder : order.Perm m.rules) :
    ((m.GetPFRUle order name guestPort).2 = true ↔
        (name ≠ [] ∧ ∃ r, (name, r) ∈ m.rules) ∨
        (guestPort > 0 ∧ ∃ e ∈ m.rules, e.2.GuestPort = guestPort)) ∧
      ((m.GetPFRUle order name guestPort).2 = true →
        ∃ k, (k, (m.GetPFRUle order name guestPort).1) ∈ m.rules) ∧
      ((m.GetPFRUle order name guestPort).2 = true →
        ¬ (name ≠ [] ∧ ∃ r, (name, r) ∈ m.rules) →
        (m.GetPFRUle order name guestPort).1.GuestPort = guestPort) ∧
      ((m.GetPFRUle order name guestPort).2 = false →
        (m.GetPFRUle order name guestPort).1 = PFRule.zero) ∧
      m.GetPFRUle order [] 0 = (PFRule.zero, false) ∧
      (m.PFRules = none → m.GetPFRUle order name guestPort = (PFRule.zero, false)) := by
  cases hm : m.PFRules with
  | none =>
    have hrules : m.rules = [] := by simp only [Machine.rules, hm]
    simp [GetPFRUle_nil m order _ _ hm, hrules]
  | some rules =>
    have hrules : m.rules = rules.entries := by simp only [Machine.rules, hm]
    rw [hrules] at horder ⊢
    have hzero : m.GetPFRUle order [] 0 = (PFRule.zero, false) := by
      rw [GetPFRUle_no_name m rules order [] 0 hm (fun h => h.1 rfl)]
      rfl
    refine ⟨?_, ?_, ?_, ?_, hzero, fun h => by cases h⟩
    all_goals
      by_cases hname : name ≠ [] ∧ ∃ r, (name, r) ∈ rules.entries
      · obtain ⟨hn, r, hr⟩ := hname
        have hval := GetPFRUle_by_name m rules order name r guestPort hm
          ((GoMap.get_eq_some_iff rules name r).mpr hr) hn
        rw [hval]
        first
          | exact ⟨fun _ => Or.inl ⟨hn, r, hr⟩, fun _ => rfl⟩
          | exact fun _ => ⟨name, hr⟩
          | exact fun _ h => absurd ⟨hn, r, hr⟩ h
          | (intro h; simp at h)
      · rw [GetPFRUle_no_name m rules order name guestPort hm hname]
        by_cases hp : guestPort > 0
        · rw [if_pos hp]
          cases hf : order.find? (fun e => e.2.GuestPort == guestPort) with
          | none =>
            have hnot : ¬ ∃ e ∈ rules.entries, e.2.GuestPort = guestPort := by
              rintro ⟨e, he, hpe⟩
              have := List.find?_eq_none.mp hf e (horder.mem_iff.mpr he)
              simp [hpe] at this
            first
              | (constructor
                 · intro h; simp at h
                 · rintro (h | h)
                   · exact absurd h hname
                   · exact absurd h.2 hnot)
              | (intro h; simp at h; done)
              | exact fun _ => rfl
          | some e =>
            have hmem : e ∈ rules.entries := horder.mem_iff.mp (List.mem_of_find?_eq_some hf)
            have hpe : e.2.GuestPort = guestPort := by
              have := List.find?_some hf
              simpa using this
            first
              | exact ⟨fun _ => Or.inr ⟨hp, e, hmem, hpe⟩, fun _ => rfl⟩
              | exact fun _ => ⟨e.1, hmem⟩
              | exact fun _ _ => hpe
              | (intro h; simp at h)
        · rw [if_neg hp]
          first
            | (constructor
               · intro h; simp at h
               · rintro (h | h)
                 · exact absurd h hname
                 · exact absurd h.1 hp)
            | (intro h; simp at h; done)
            | exact fun _ => rfl

theorem GetPFRUle_found_iff_witness :
    ((Machine.GetPFRUle
          ⟨some ⟨[("nat1".toList, ⟨"tcp".toList, none, 22, none, 2222⟩),
            ("other".toList, ⟨"udp".toList, none, 53, none, 7⟩)], by decide⟩⟩
          [("other".toList, ⟨"udp".toList, none, 53, none, 7⟩),
            ("nat1".toList, ⟨"tcp".toList, none, 22, none, 2222⟩)] [] 7).2 = true ↔
        (([] : GoString) ≠ [] ∧ ∃ r, ([], r) ∈ Machine.rules
          ⟨some ⟨[("nat1".toList, ⟨"tcp".toList, none, 22, none, 2222⟩),
            ("other".toList, ⟨"udp".toList, none, 53, none, 7⟩)], by decide⟩⟩) ∨
        (7 > 0 ∧ ∃ e ∈ Machine.rules
          ⟨some ⟨[("nat1".toList, ⟨"tcp".toList, none, 22, none, 2222⟩),
            ("other".toList, ⟨"udp".toList, none, 53, none, 7⟩)], by decide⟩⟩,
          e.2.GuestPort = 7)) :=
  (GetPFRUle_found_iff
    ⟨some ⟨[("nat1".toList, ⟨"tcp".toList, none, 22, none, 2222⟩),
      ("other".toList, ⟨"udp".toList, none, 53, none, 7⟩)], by decide⟩⟩
    [("other".toList, ⟨"udp".toList, none, 53, none, 7⟩),
      ("nat1".toList, ⟨"tcp".toList, none, 22, none, 2222⟩)] [] 7
    (List.Perm.swap _ _ _)).1

theorem GoMap.length_storeIn_mem {V : Type} (k : GoString) (v : V) (l : List (GoString × V))
    (hk : k ∈ l.map Prod.fst) : (GoMap.storeIn k v l).length = l.length := by
  have h := congrArg List.length (GoMap.keys_storeIn k v l)
  simpa [hk] using h

theorem GoMap.mem_keys_storeIn {V : Type} (k : GoString) (v : V) (l : List (GoString × V)) :
    k ∈ (GoMap.storeIn k v l).map Prod.fst := by
  rw [GoMap.keys_storeIn]
  split
  · assumption
  · exact List.mem_append_right _ (List.mem_singleton_self k)

/-- A key with the prefix and a value that is accepted: the value has six
fields, the rule made of them is stored under the first. -/
theorem parseForwarading_nil_inv (lib : GoLib) (m m' : Machine) (key value : GoString)
    (hkey : HasPrefix key "Forwarding(".toList = true)
    (h : m.parseForwarading lib key value = (m', none)) :
    ∃ r, ∀ m0 : Machine, m0.parseForwarading lib key value =
      (⟨some ((match m0.PFRules with
          | none => GoMap.empty
          | some rules => rules).set ((splitComma value).getD 0 []) r)⟩, none) := by
  have hk : ¬ ((!HasPrefix key "Forwarding(".toList) = true) := by
    rw [hkey]
    decide
  revert h
  simp only [Machine.parseForwarading]
  rw [if_neg hk]
  by_cases hlen : (splitComma value).length ≠ 6
  · rw [if_pos hlen]
    intro h
    cases h
  rw [if_neg hlen]
  cases getIP lib ((splitComma value).getD 2 []) with
  | error e => intro h; cases h
  | ok hostip =>
    cases Atoi ((splitComma value).getD 3 []) with
    | error e => intro h; cases h
    | ok hostport =>
      cases getIP lib ((splitComma value).getD 4 []) with
      | error e => intro h; cases h
      | ok guestip =>
        cases Atoi ((splitComma value).getD 5 []) with
        | error e => intro h; cases h
        | ok guestport =>
          intro _
          refine ⟨⟨(splitComma value).getD 1 [], hostip, toUint16 hostport, guestip,
            toUint16 guestport⟩, fun m0 => ?_⟩
          rw [if_neg hk, if_neg hlen]

/-- C14: when two values are accepted one after the other and have the same
first field `n`, the rule under `n` is afterwards the rule the second value
alone gives, the map has as many entries as after the first value, and the
entries under other names are those after the first value. -/
theorem parseForwarading_upsert (lib : GoLib) (m m1 m2 : Machine)
    (key1 key2 value1 value2 n : GoString)
    (hkey1 : HasPrefix key1 "Forwarding(".toList = true)
    (hkey2 : HasPrefix key2 "Forwarding(".toList = true)
    (h1 : m.parseForwarading lib key1 value1 = (m1, none))
    (h2 : m1.parseForwarading lib key2 value2 = (m2, none))
    (hn1 : (splitComma value1).getD 0 [] = n) (hn2 : (splitComma value2).getD 0 [] = n) :
    ∃ rules1 rules2 r, m1.PFRules = some rules1 ∧ m2.PFRules = some rules2 ∧
      rules2.get n = some r ∧
      (∀ m0 : Machine, ∃ rules0, (m0.parseForwarading lib key2 value2).1.PFRules = some rules0 ∧
        rules0.get n = some r) ∧
      rules2.len = rules1.len ∧
      ∀ k, k ≠ n → rules2.get k = rules1.get k := by
  obtain ⟨r1, hr1⟩ := parseForwarading_nil_inv lib m m1 key1 value1 hkey1 h1
  obtain ⟨r2, hr2⟩ := parseForwarading_nil_inv lib m1 m2 key2 value2 hkey2 h2
  rw [hn1] at hr1
  rw [hn2] at hr2
  have e1 := (hr1 m).symm.trans h1
  have e2 := (hr2 m1).symm.trans h2
  simp only [Prod.mk.injEq, and_true] at e1 e2
  subst e1
  subst e2
  refine ⟨_, _, r2, rfl, rfl, GoMap.get_set_self _ _ _, ?_, ?_, ?_⟩
  · intro m0
    rw [hr2 m0]
    exact ⟨_, rfl, GoMap.get_set_self _ _ _⟩
  · exact GoMap.length_storeIn_mem _ _ _ (GoMap.mem_keys_storeIn _ _ _)
  · intro k hk
    exact GoMap.get_set_ne _ _ hk

theorem parseForwarading_upsert_witness :
    ∃ rules1 rules2 r,
      (⟨some ⟨[("ssh".toList, ⟨"tcp".toList, none, 2222, none, 22⟩)], by decide⟩⟩ : Machine).PFRules
        = some rules1 ∧
      (⟨some ⟨[("ssh".toList, ⟨"udp".toList, some [0, 0, 0, 0, 0, 0, 0, 0, 0, 0, 255, 255,
          1, 2, 3, 4], 53, none, 5353⟩)], by decide⟩⟩ : Machine).PFRules = some rules2 ∧
      rules2.get "ssh".toList = some r ∧
      (∀ m0 : Machine, ∃ rules0, (m0.parseForwarading sampleLib "Forwarding(1)".toList
          "ssh,udp,1.2.3.4,53,,5353".toList).1.PFRules = some rules0 ∧
        rules0.get "ssh".toList = some r) ∧
      rules2.len = rules1.len ∧
      ∀ k, k ≠ "ssh".toList → rules2.get k = rules1.get k :=
  parseForwarading_upsert sampleLib ⟨none⟩ _ _ "Forwarding(0)".toList "Forwarding(1)".toList
    "ssh,tcp,,2222,,22".toList "ssh,udp,1.2.3.4,53,,5353".toList "ssh".toList
    (by decide) (by decide) (by decide) (by decide) (by decide) (by decide)

/-- C15, the code at a value with four fields: the call
`badForwarding(key, value, "wrong number of parameters")` gives the key as
message, the value as key and the reason as value, so the text is
`Bad Forwarding entry: <key> (<value>=wrong number of parameters)`. -/
theorem parseForwarading_field_count_text :
    (Machine.parseForwarading sampleLib ⟨none⟩ "Forwarding(0)".toList
        "rule1,tcp,,8080".toList).2
      = some "Bad Forwarding entry: Forwarding(0) (rule1,tcp,,8080=wrong number of parameters)".toList ∧
    (Machine.parseForwarading sampleLib ⟨none⟩ "Forwarding(0)".toList
        "rule1,tcp,,8080".toList).2
      ≠ some "Bad Forwarding entry: wrong number of parameters (Forwarding(0)=rule1,tcp,,8080)".toList := by
  decide

/-- For an address or a port that cannot be read the text of the error has
the reason, the key and the value in their places. -/
theorem parseForwarading_field_error_text :
    (Machine.parseForwarading sampleLib ⟨none⟩ "Forwarding(0)".toList
        "rule1,tcp,1.2.3,80,,8080".toList).2
      = some "Bad Forwarding entry: Bad IP (Forwarding(0)=rule1,tcp,1.2.3,80,,8080)".toList ∧
    (Machine.parseForwarading sampleLib ⟨none⟩ "Forwarding(0)".toList
        "rule1,tcp,,abc,,8080".toList).2
      = some ("Bad Forwarding entry: strconv.Atoi: parsing \"abc\": invalid syntax " ++
          "(Forwarding(0)=rule1,tcp,,abc,,8080)").toList := by
  decide

/-- C18: whatever text stands in the second field, a value of six fields
whose addresses and ports are accepted makes `parseForwarading` return nil
and store a rule whose `Proto` is that text. -/
theorem parseForwarading_any_proto (lib : GoLib) (m : Machine) (key value : GoString)
    (name p hostip hostport guestip guestport : GoString) (hi gi : Option IP) (hp gp : Int)
    (hkey : HasPrefix key "Forwarding(".toList = true)
    (hvals : splitComma value = [name, p, hostip, hostport, guestip, guestport])
    (h2 : getIP lib hostip = .ok hi) (h3 : Atoi hostport = .ok hp)
    (h4 : getIP lib guestip = .ok gi) (h5 : Atoi guestport = .ok gp) :
    (m.parseForwarading lib key value).2 = none ∧
      ∃ rules r, (m.parseForwarading lib key value).1.PFRules = some rules ∧
        rules.get name = some r ∧ r.Proto = p := by
  rw [parseForwarading_accepts lib m key value _ _ _ _ _ _ hi gi hp gp hkey hvals h2 h3 h4 h5]
  exact ⟨rfl, _, _, rfl, GoMap.get_set_self _ _ _, rfl⟩

theorem parseForwarading_any_proto_witness :
    (Machine.parseForwarading sampleLib ⟨none⟩ "Forwarding(0)".toList
        (joinComma ["r".toList, "sctp/x".toList, [], "80".toList, [], "8080".toList])).2 = none ∧
      ∃ rules r, (Machine.parseForwarading sampleLib ⟨none⟩ "Forwarding(0)".toList
          (joinComma ["r".toList, "sctp/x".toList, [], "80".toList, [], "8080".toList])).1.PFRules
          = some rules ∧
        rules.get "r".toList = some r ∧ r.Proto = "sctp/x".toList :=
  parseForwarading_any_proto sampleLib ⟨none⟩ "Forwarding(0)".toList _ "r".toList
    "sctp/x".toList [] "80".toList [] "8080".toList none none 80 8080 (by decide)
    (splitComma_joinComma_six _ _ _ _ _ _ (by decide) (by decide) (by decide) (by decide)
      (by decide) (by decide)) rfl rfl rfl rfl

/-- C19: a port field that `Atoi` reads as the integer `n`, in a value of
six fields whose other fields are accepted, gives no error, and the stored
port is `n` modulo 65536, a number below 65536. -/
theorem parseForwarading_port_mod (lib : GoLib) (m : Machine) (key value : GoString)
    (name proto hostip hostport guestip guestport : GoString) (hi gi : Option IP) (hp gp : Int)
    (hkey : HasPrefix key "Forwarding(".toList = true)
    (hvals : splitComma value = [name, proto, hostip, hostport, guestip, guestport])
    (h2 : getIP lib hostip = .ok hi) (h3 : Atoi hostport = .ok hp)
    (h4 : getIP lib guestip = .ok gi) (h5 : Atoi guestport = .ok gp) :
    (m.parseForwarading lib key value).2 = none ∧
      ∃ rules r, (m.parseForwarading lib key value).1.PFRules = some rules ∧
        rules.get name = some r ∧
        (r.HostPort : Int) = hp % 65536 ∧ (r.GuestPort : Int) = gp % 65536 ∧
        r.HostPort < 65536 ∧ r.GuestPort < 65536 := by
  rw [parseForwarading_accepts lib m key value _ _ _ _ _ _ hi gi hp gp hkey hvals h2 h3 h4 h5]
  refine ⟨rfl, _, _, rfl, GoMap.get_set_self _ _ _, ?_, ?_, ?_, ?_⟩ <;>
    simp only [toUint16] <;> omega

theorem parseForwarading_port_mod_witness :
    (Machine.parseForwarading sampleLib ⟨none⟩ "Forwarding(0)".toList
        "r,tcp,,70000,,-1".toList).2 = none ∧
      ∃ rules r, (Machine.parseForwarading sampleLib ⟨none⟩ "Forwarding(0)".toList
          "r,tcp,,70000,,-1".toList).1.PFRules = some rules ∧
        rules.get "r".toList = some r ∧
        (r.HostPort : Int) = 70000 % 65536 ∧ (r.GuestPort : Int) = (-1) % 65536 ∧
        r.HostPort < 65536 ∧ r.GuestPort < 65536 :=
  parseForwarading_port_mod sampleLib ⟨none⟩ "Forwarding(0)".toList "r,tcp,,70000,,-1".toList
    "r".toList "tcp".toList [] "70000".toList [] "-1".toList none none 70000 (-1)
    (by decide) (by decide) rfl rfl rfl rfl

/-! ## sfolder.go: lemmas -/

theorem reSharedFolderAt_key (field scope idx : GoString)
    (hfield : field = "Name".toList ∨ field = "Path".toList)
    (hscope : scope = "Machine".toList ∨ scope = "Transient".toList)
    (hidx : idx ≠ []) (hdigits : idx.all isDecimal = true) :
    reSharedFolderAt ("SharedFolder".toList ++ field ++ scope ++ "Mapping".toList ++ idx)
      = some (field, scope, idx) := by
  rcases hfield with rfl | rfl <;> rcases hscope with rfl | rfl <;>
    simp [reSharedFolderAt, stripLit, hidx, hdigits]

theorem reSharedFolder_key (field scope idx : GoString)
    (hfield : field = "Name".toList ∨ field = "Path".toList)
    (hscope : scope = "Machine".toList ∨ scope = "Transient".toList)
    (hidx : idx ≠ []) (hdigits : idx.all isDecimal = true) :
    reSharedFolder ("SharedFolder".toList ++ field ++ scope ++ "Mapping".toList ++ idx)
      = some (field, scope, idx) := by
  have h := reSharedFolderAt_key field scope idx hfield hscope hidx hdigits
  have hcons : ∃ c cs,
      "SharedFolder".toList ++ field ++ scope ++ "Mapping".toList ++ idx = c :: cs :=
    ⟨'S', _, rfl⟩
  obtain ⟨c, cs, hc⟩ := hcons
  rw [hc] at h ⊢
  simp only [reSharedFolder, h]

theorem HasPrefix_key (field scope idx : GoString) :
    HasPrefix ("SharedFolder".toList ++ field ++ scope ++ "Mapping".toList ++ idx)
      "SharedFolder".toList = true := by
  simp only [List.append_assoc]
  exact HasPrefix_append _ _

theorem GoMap.ext_entries {V : Type} {a b : GoMap V} (h : a.entries = b.entries) : a = b := by
  cases a
  cases b
  simp only at h
  subst h
  rfl

theorem GoMap.set_set_empty {V : Type} (k : GoString) (v w : V) :
    ((GoMap.empty : GoMap V).set k v).set k w = GoMap.empty.set k w := by
  apply GoMap.ext_entries
  simp [GoMap.set, GoMap.storeIn, GoMap.empty]

/-- A name line on the fresh value makes one record with that name. -/
theorem parseProperty_first_Name (scope idx name : GoString)
    (hscope : scope = "Machine".toList ∨ scope = "Transient".toList)
    (hidx : idx ≠ []) (hdigits : idx.all isDecimal = true) :
    SharedFolders.parseProperty ⟨none⟩
        ("SharedFolderName".toList ++ scope ++ "Mapping".toList ++ idx) name
      = (⟨some (GoMap.empty.set (scope ++ idx) ⟨name, []⟩)⟩, none) := by
  have hkey : "SharedFolderName".toList ++ scope ++ "Mapping".toList ++ idx =
      "SharedFolder".toList ++ "Name".toList ++ scope ++ "Mapping".toList ++ idx := rfl
  rw [hkey]
  simp only [SharedFolders.parseProperty, HasPrefix_key, Bool.not_true, Bool.false_eq_true,
    if_false, reSharedFolder_key _ scope idx (Or.inl rfl) hscope hidx hdigits]
  simp only [GoMap.get, GoMap.empty, GoMap.lookupIn, if_true, Prod.mk.injEq, and_true]
  exact congrArg (fun f => SharedFolders.mk (some f)) (GoMap.set_set_empty _ _ _)

/-- A path line on the fresh value makes one record with that path. -/
theorem parseProperty_first_Path (scope idx path : GoString)
    (hscope : scope = "Machine".toList ∨ scope = "Transient".toList)
    (hidx : idx ≠ []) (hdigits : idx.all isDecimal = true) :
    SharedFolders.parseProperty ⟨none⟩
        ("SharedFolderPath".toList ++ scope ++ "Mapping".toList ++ idx) path
      = (⟨some (GoMap.empty.set (scope ++ idx) ⟨[], path⟩)⟩, none) := by
  have hkey : "SharedFolderPath".toList ++ scope ++ "Mapping".toList ++ idx =
      "SharedFolder".toList ++ "Path".toList ++ scope ++ "Mapping".toList ++ idx := rfl
  rw [hkey]
  simp only [SharedFolders.parseProperty, HasPrefix_key, Bool.not_true, Bool.false_eq_true,
    if_false, reSharedFolder_key _ scope idx (Or.inr rfl) hscope hidx hdigits]
  have hne : ¬ "Path".toList = "Name".toList := by decide
  simp only [GoMap.get, GoMap.empty, GoMap.lookupIn, hne, if_false, if_true, Prod.mk.injEq,
    and_true]
  exact congrArg (fun f => SharedFolders.mk (some f)) (GoMap.set_set_empty _ _ _)

/-- A path line on a value whose only record has the line's identifier sets
the path of that record. -/
theorem parseProperty_second_Path (scope idx path : GoString) (sf : SharedFolder)
    (hscope : scope = "Machine".toList ∨ scope = "Transient".toList)
    (hidx : idx ≠ []) (hdigits : idx.all isDecimal = true) :
    SharedFolders.parseProperty ⟨some (GoMap.empty.set (scope ++ idx) sf)⟩
        ("SharedFolderPath".toList ++ scope ++ "Mapping".toList ++ idx) path
      = (⟨some (GoMap.empty.set (scope ++ idx) { sf with Path := path })⟩, none) := by
  have hkey : "SharedFolderPath".toList ++ scope ++ "Mapping".toList ++ idx =
      "SharedFolder".toList ++ "Path".toList ++ scope ++ "Mapping".toList ++ idx := rfl
  rw [hkey]
  simp only [SharedFolders.parseProperty, HasPrefix_key, Bool.not_true, Bool.false_eq_true,
    if_false, reSharedFolder_key _ scope idx (Or.inr rfl) hscope hidx hdigits]
  have hne : ¬ "Path".toList = "Name".toList := by decide
  simp only [GoMap.get_set_self, hne, if_false, if_true, Prod.mk.injEq, and_true]
  exact congrArg (fun f => SharedFolders.mk (some f)) (GoMap.set_set_empty _ _ _)

/-- A name line on a value whose only record has the line's identifier sets
the name of that record. -/
theorem parseProperty_second_Name (scope idx name : GoString) (sf : SharedFolder)
    (hscope : scope = "Machine".toList ∨ scope = "Transient".toList)
    (hidx : idx ≠ []) (hdigits : idx.all isDecimal = true) :
    SharedFolders.parseProperty ⟨some (GoMap.empty.set (scope ++ idx) sf)⟩
        ("SharedFolderName".toList ++ scope ++ "Mapping".toList ++ idx) name
      = (⟨some (GoMap.empty.set (scope ++ idx) { sf with Name := name })⟩, none) := by
  have hkey : "SharedFolderName".toList ++ scope ++ "Mapping".toList ++ idx =
      "SharedFolder".toList ++ "Name".toList ++ scope ++ "Mapping".toList ++ idx := rfl
  rw [hkey]
  simp only [SharedFolders.parseProperty, HasPrefix_key, Bool.not_true, Bool.false_eq_true,
    if_false, reSharedFolder_key _ scope idx (Or.inl rfl) hscope hidx hdigits]
  simp only [GoMap.get_set_self, if_true, Prod.mk.injEq, and_true]
  exact congrArg (fun f => SharedFolders.mk (some f)) (GoMap.set_set_empty _ _ _)

theorem List_single (id : GoString) (sf : SharedFolder)
    (order : List (GoString × SharedFolder))
    (horder : order.Perm
      (SharedFolders.entries ⟨some (GoMap.empty.set id sf)⟩)) :
    SharedFolders.List (some ⟨some (GoMap.empty.set id sf)⟩) order = some [sf] := by
  have hent : SharedFolders.entries ⟨some (GoMap.empty.set id sf)⟩ = [(id, sf)] := rfl
  rw [hent] at horder
  have ho : order = [(id, sf)] := List.perm_singleton.mp horder
  subst ho
  simp [SharedFolders.List, GoMap.len, GoMap.set, GoMap.empty, GoMap.storeIn]

/-! ## sfolder.go: one call and a sequence of calls -/

theorem reSharedFolderAt_inv {s a sc idx : GoString}
    (h : reSharedFolderAt s = some (a, sc, idx)) :
    (a = "Name".toList ∨ a = "Path".toList) ∧
      (sc = "Machine".toList ∨ sc = "Transient".toList) ∧
      idx ≠ [] ∧ idx.all isDecimal = true ∧
      s = "SharedFolder".toList ++ a ++ sc ++ "Mapping".toList ++ idx := by
  unfold reSharedFolderAt at h
  cases h1 : stripLit "SharedFolder".toList s with
  | none => rw [h1] at h; simp at h
  | some s1 =>
    have e1 := stripLit_eq_some h1
    simp only [h1] at h
    have tail : ∀ (f s2 : GoString), s1 = f ++ s2 →
        (match (match stripLit "Machine".toList s2 with
            | some s3 => some ("Machine".toList, s3)
            | none =>
              match stripLit "Transient".toList s2 with
              | some s3 => some ("Transient".toList, s3)
              | none => none) with
          | none => none
          | some (sc, s3) =>
            match stripLit "Mapping".toList s3 with
            | none => none
            | some digits =>
              if digits ≠ [] ∧ digits.all isDecimal = true then some (f, sc, digits)
              else none) = some (a, sc, idx) →
        a = f ∧ (sc = "Machine".toList ∨ sc = "Transient".toList) ∧
          idx ≠ [] ∧ idx.all isDecimal = true ∧
          s = "SharedFolder".toList ++ a ++ sc ++ "Mapping".toList ++ idx := by
      intro f s2 hs1 h
      have fin : ∀ (sc' s3 : GoString), s2 = sc' ++ s3 →
          (match stripLit "Mapping".toList s3 with
            | none => none
            | some digits =>
              if digits ≠ [] ∧ digits.all isDecimal = true then some (f, sc', digits)
              else none) = some (a, sc, idx) →
          a = f ∧ sc = sc' ∧ idx ≠ [] ∧ idx.all isDecimal = true ∧
            s = "SharedFolder".toList ++ a ++ sc ++ "Mapping".toList ++ idx := by
        intro sc' s3 hs2 h
        cases h4 : stripLit "Mapping".toList s3 with
        | none => rw [h4] at h; simp at h
        | some digits =>
          have e4 := stripLit_eq_some h4
          simp only [h4] at h
          by_cases hd : digits ≠ [] ∧ digits.all isDecimal = true
          · rw [if_pos hd] at h
            simp only [Option.some.injEq, Prod.mk.injEq] at h
            obtain ⟨rfl, rfl, rfl⟩ := h
            refine ⟨rfl, rfl, hd.1, hd.2, ?_⟩
            rw [e1, hs1, hs2, e4]
            simp only [List.append_assoc]
          · rw [if_neg hd] at h
            cases h
      cases h3 : stripLit "Machine".toList s2 with
      | some s3 =>
        simp only [h3] at h
        obtain ⟨ha, hsc, r⟩ := fin _ s3 (stripLit_eq_some h3) h
        exact ⟨ha, Or.inl hsc, r⟩
      | none =>
        cases h3' : stripLit "Transient".toList s2 with
        | some s3 =>
          simp only [h3, h3'] at h
          obtain ⟨ha, hsc, r⟩ := fin _ s3 (stripLit_eq_some h3') h
          exact ⟨ha, Or.inr hsc, r⟩
        | none => rw [h3, h3'] at h; simp at h
    cases h2 : stripLit "Name".toList s1 with
    | some s2 =>
      simp only [h2] at h
      obtain ⟨ha, r⟩ := tail _ s2 (stripLit_eq_some h2) h
      exact ⟨Or.inl ha, r⟩
    | none =>
      cases h2' : stripLit "Path".toList s1 with
      | some s2 =>
        simp only [h2, h2'] at h
        obtain ⟨ha, r⟩ := tail _ s2 (stripLit_eq_some h2') h
        exact ⟨Or.inr ha, r⟩
      | none => rw [h2, h2'] at h; simp at h

theorem reSharedFolder_inv {key a sc idx : GoString}
    (h : reSharedFolder key = some (a, sc, idx)) :
    (a = "Name".toList ∨ a = "Path".toList) ∧
      (sc = "Machine".toList ∨ sc = "Transient".toList) ∧
      idx ≠ [] ∧ idx.all isDecimal = true ∧
      ∃ pre, key = pre ++ ("SharedFolder".toList ++ a ++ sc ++ "Mapping".toList ++ idx) := by
  induction key with
  | nil =>
    simp only [reSharedFolder] at h
    obtain ⟨h1, h2, h3, h4, h5⟩ := reSharedFolderAt_inv h
    exact ⟨h1, h2, h3, h4, [], h5⟩
  | cons c cs ih =>
    simp only [reSharedFolder] at h
    cases hat : reSharedFolderAt (c :: cs) with
    | some g =>
      rw [hat] at h
      simp only [Option.some.injEq] at h
      subst h
      obtain ⟨h1, h2, h3, h4, h5⟩ := reSharedFolderAt_inv hat
      exact ⟨h1, h2, h3, h4, [], h5⟩
    | none =>
      rw [hat] at h
      obtain ⟨h1, h2, h3, h4, pre, h5⟩ := ih h
      exact ⟨h1, h2, h3, h4, c :: pre, by rw [h5]; rfl⟩

theorem GoMap.storeIn_storeIn {V : Type} (k : GoString) (v w : V) (l : List (GoString × V)) :
    GoMap.storeIn k w (GoMap.storeIn k v l) = GoMap.storeIn k w l := by
  induction l with
  | nil => simp [GoMap.storeIn]
  | cons e t ih =>
    obtain ⟨k', v'⟩ := e
    by_cases h : k' = k
    · subst h
      simp [GoMap.storeIn]
    · simp [GoMap.storeIn, h, ih]

theorem GoMap.set_set {V : Type} (m : GoMap V) (k : GoString) (v w : V) :
    (m.set k v).set k w = m.set k w :=
  GoMap.ext_entries (GoMap.storeIn_storeIn k v w m.entries)

/-- The result of `parseProperty` for a key with the prefix that the
pattern matches: the record of the identifier, or a new one, gets the value
in the field the key names. -/
theorem parseProperty_match (s : SharedFolders) (key value a sc idx : GoString)
    (hkey : HasPrefix key "SharedFolder".toList = true)
    (hre : reSharedFolder key = some (a, sc, idx)) :
    s.parseProperty key value =
      (⟨some ((match s.folders with
          | none => GoMap.empty
          | some folders => folders).set (sc ++ idx)
            ((match s.lookup (sc ++ idx) with
              | some sf => sf
              | none => ⟨[], []⟩).assign a value))⟩, none) := by
  have ha := (reSharedFolder_inv hre).1
  have hne : ¬ "Path".toList = "Name".toList := by decide
  simp only [SharedFolders.parseProperty, hkey, Bool.not_true, Bool.false_eq_true, if_false, hre,
    SharedFolders.lookup, SharedFolder.assign]
  cases hf : s.folders with
  | none =>
    simp only [GoMap.get, GoMap.empty, GoMap.lookupIn]
    rcases ha with rfl | rfl
    · simp only [if_true, GoMap.set_set]
    · simp only [hne, if_false, if_true, GoMap.set_set]
  | some folders =>
    simp only
    cases hg : folders.get (sc ++ idx) with
    | none =>
      rcases ha with rfl | rfl
      · simp only [if_true, GoMap.set_set]
      · simp only [hne, if_false, if_true, GoMap.set_set]
    | some sf =>
      rcases ha with rfl | rfl
      · simp only [if_true]
      · simp only [hne, if_false, if_true]

/-- The result of `parseProperty` for a key with the prefix that the
pattern does not match: the error, and the receiver as it was. -/
theorem parseProperty_no_match (s : SharedFolders) (key value : GoString)
    (hkey : HasPrefix key "SharedFolder".toList = true) (hre : reSharedFolder key = none) :
    s.parseProperty key value = (s, some ("Bad property: ".toList ++ key)) := by
  simp only [SharedFolders.parseProperty, hkey, Bool.not_true, Bool.false_eq_true, if_false, hre]

theorem parseProperty_other_key (s : SharedFolders) (key value : GoString)
    (hkey : HasPrefix key "SharedFolder".toList = false) :
    s.parseProperty key value = (s, none) := by
  simp only [SharedFolders.parseProperty, hkey, Bool.not_false, if_true]

theorem lookup_parseProperty_same (s : SharedFolders) (key value a sc idx : GoString)
    (hkey : HasPrefix key "SharedFolder".toList = true)
    (hre : reSharedFolder key = some (a, sc, idx)) :
    (s.parseProperty key value).1.lookup (sc ++ idx) =
      some ((match s.lookup (sc ++ idx) with
        | some sf => sf
        | none => ⟨[], []⟩).assign a value) := by
  rw [parseProperty_match s key value a sc idx hkey hre]
  exact GoMap.get_set_self _ _ _

theorem lookup_parseProperty_other (s : SharedFolders) (key value a sc idx id : GoString)
    (hkey : HasPrefix key "SharedFolder".toList = true)
    (hre : reSharedFolder key = some (a, sc, idx)) (hid : id ≠ sc ++ idx) :
    (s.parseProperty key value).1.lookup id = s.lookup id := by
  rw [parseProperty_match s key value a sc idx hkey hre]
  simp only [SharedFolders.lookup]
  rw [GoMap.get_set_ne _ _ hid]
  cases s.folders with
  | none => rfl
  | some folders => rfl

/-- A line that is accepted for no field and no record leaves the receiver
as it was. -/
theorem parseProperty_not_accepted (s : SharedFolders) (line : GoString × GoString)
    (h : ¬ ∃ f id, acceptedLine f id line) : (s.parseProperty line.1 line.2).1 = s := by
  cases hkey : HasPrefix line.1 "SharedFolder".toList with
  | false => rw [parseProperty_other_key s _ _ hkey]
  | true =>
    cases hre : reSharedFolder line.1 with
    | none => rw [parseProperty_no_match s _ _ hkey hre]
    | some g =>
      obtain ⟨a, sc, idx⟩ := g
      exact absurd ⟨a, sc ++ idx, hkey, sc, idx, hre, rfl⟩ h

theorem parseLines_append (s : SharedFolders) (l1 l2 : List (GoString × GoString)) :
    s.parseLines (l1 ++ l2) = (s.parseLines l1).parseLines l2 := by
  induction l1 generalizing s with
  | nil => rfl
  | cons l rest ih => exact ih _

theorem assign_Name (sf : SharedFolder) (a value : GoString) :
    (sf.assign a value).Name = if a = "Name".toList then value else sf.Name := by
  unfold SharedFolder.assign
  split <;> rfl

theorem assign_Path (sf : SharedFolder) (a value : GoString) :
    (sf.assign a value).Path = if a = "Name".toList then sf.Path else value := by
  unfold SharedFolder.assign
  split <;> rfl

/-- What holds of the records after a sequence of calls on the fresh value:
a record is there exactly for the identifiers of the accepted lines, and a
field that is not empty is the value of an accepted line for that field. -/
theorem parseLines_records (lines : List (GoString × GoString)) :
    (∀ id sf, (SharedFolders.parseLines ⟨none⟩ lines).lookup id = some sf →
        (∃ l ∈ lines, ∃ f, acceptedLine f id l) ∧
        (sf.Name ≠ [] → ∃ l ∈ lines, acceptedLine "Name".toList id l ∧ l.2 = sf.Name) ∧
        (sf.Path ≠ [] → ∃ l ∈ lines, acceptedLine "Path".toList id l ∧ l.2 = sf.Path)) ∧
      (∀ id, (∃ l ∈ lines, ∃ f, acceptedLine f id l) →
        ∃ sf, (SharedFolders.parseLines ⟨none⟩ lines).lookup id = some sf) := by
  induction lines using List.reverseRecOn with
  | nil =>
    constructor
    · intro id sf h
      simp [SharedFolders.parseLines, SharedFolders.lookup] at h
    · rintro id ⟨l, hl, _⟩
      simp at hl
  | append_singleton init l ih =>
    obtain ⟨ihA, ihB⟩ := ih
    have hrun : SharedFolders.parseLines ⟨none⟩ (init ++ [l]) =
        ((SharedFolders.parseLines ⟨none⟩ init).parseProperty l.1 l.2).1 := by
      rw [parseLines_append]
      rfl
    rw [hrun]
    by_cases hacc : ∃ f id, acceptedLine f id l
    · obtain ⟨a, id0, hkey, sc, idx, hre, hid0⟩ := hacc
      have hval := (reSharedFolder_inv hre).1
      have hne : ¬ "Path".toList = "Name".toList := by decide
      constructor
      · intro id sf h
        by_cases hid : id = sc ++ idx
        · subst hid
          rw [lookup_parseProperty_same _ _ _ a sc idx hkey hre] at h
          simp only [Option.some.injEq] at h
          subst h
          have hself : acceptedLine a (sc ++ idx) l := ⟨hkey, sc, idx, hre, rfl⟩
          refine ⟨⟨l, by simp, a, hself⟩, ?_, ?_⟩
          · rw [assign_Name]
            by_cases ha : a = "Name".toList
            · rw [if_pos ha]
              intro _
              exact ⟨l, by simp, ha ▸ hself, rfl⟩
            · rw [if_neg ha]
              cases hold : (SharedFolders.parseLines ⟨none⟩ init).lookup (sc ++ idx) with
              | none => intro hn; exact absurd rfl hn
              | some old =>
                intro hn
                obtain ⟨l', hl', hacc', hv'⟩ := (ihA _ old hold).2.1 hn
                exact ⟨l', List.mem_append_left _ hl', hacc', hv'⟩
          · rw [assign_Path]
            by_cases ha : a = "Name".toList
            · rw [if_pos ha]
              cases hold : (SharedFolders.parseLines ⟨none⟩ init).lookup (sc ++ idx) with
              | none => intro hn; exact absurd rfl hn
              | some old =>
                intro hn
                obtain ⟨l', hl', hacc', hv'⟩ := (ihA _ old hold).2.2 hn
                exact ⟨l', List.mem_append_left _ hl', hacc', hv'⟩
            · rw [if_neg ha]
              have hp : a = "Path".toList := hval.resolve_left ha
              intro _
              exact ⟨l, by simp, hp ▸ hself, rfl⟩
        · rw [lookup_parseProperty_other _ _ _ a sc idx id hkey hre hid] at h
          obtain ⟨⟨l', hl', hacc'⟩, hN, hP⟩ := ihA id sf h
          refine ⟨⟨l', List.mem_append_left _ hl', hacc'⟩, ?_, ?_⟩
          · intro hn
            obtain ⟨l2, hl2, h2⟩ := hN hn
            exact ⟨l2, List.mem_append_left _ hl2, h2⟩
          · intro hn
            obtain ⟨l2, hl2, h2⟩ := hP hn
            exact ⟨l2, List.mem_append_left _ hl2, h2⟩
      · rintro id ⟨l', hl', f, hacc'⟩
        by_cases hid : id = sc ++ idx
        · subst hid
          exact ⟨_, lookup_parseProperty_same _ _ _ a sc idx hkey hre⟩
        · rw [lookup_parseProperty_other _ _ _ a sc idx id hkey hre hid]
          rcases List.mem_append.mp hl' with hin | hlast
          · exact ihB id ⟨l', hin, f, hacc'⟩
          · simp only [List.mem_singleton] at hlast
            subst hlast
            obtain ⟨_, sc', idx', hre', hid'⟩ := hacc'
            rw [hre] at hre'
            simp only [Option.some.injEq, Prod.mk.injEq] at hre'
            obtain ⟨_, rfl, rfl⟩ := hre'
            exact absurd hid'.symm hid
    · rw [parseProperty_not_accepted _ l hacc]
      constructor
      · intro id sf h
        obtain ⟨⟨l', hl', hacc'⟩, hN, hP⟩ := ihA id sf h
        refine ⟨⟨l', List.mem_append_left _ hl', hacc'⟩, ?_, ?_⟩
        · intro hn
          obtain ⟨l2, hl2, h2⟩ := hN hn
          exact ⟨l2, List.mem_append_left _ hl2, h2⟩
        · intro hn
          obtain ⟨l2, hl2, h2⟩ := hP hn
          exact ⟨l2, List.mem_append_left _ hl2, h2⟩
      · rintro id ⟨l', hl', f, hacc'⟩
        rcases List.mem_append.mp hl' with hin | hlast
        · exact ihB id ⟨l', hin, f, hacc'⟩
        · simp only [List.mem_singleton] at hlast
          subst hlast
          exact absurd ⟨f, id, hacc'⟩ hacc

theorem mem_entries_iff (s : SharedFolders) (id : GoString) (sf : SharedFolder) :
    (id, sf) ∈ s.entries ↔ s.lookup id = some sf := by
  unfold SharedFolders.entries SharedFolders.lookup
  cases s.folders with
  | none => simp
  | some folders => exact (GoMap.get_eq_some_iff folders id sf).symm

theorem List_nil_map (s : SharedFolders) (order : List (GoString × SharedFolder))
    (hf : s.folders = none) : SharedFolders.List (some s) order = none := by
  simp only [SharedFolders.List, hf]

theorem List_map (s : SharedFolders) (order : List (GoString × SharedFolder))
    (folders : GoMap SharedFolder) (hf : s.folders = some folders) :
    SharedFolders.List (some s) order =
      if folders.len = 0 then none else some (order.map (fun e => e.2)) := by
  simp only [SharedFolders.List, hf]

theorem List_eq_some (s : SharedFolders) (order : List (GoString × SharedFolder))
    (recs : List SharedFolder) (h : SharedFolders.List (some s) order = some recs) :
    recs = order.map (fun e => e.2) := by
  cases hf : s.folders with
  | none => rw [List_nil_map s order hf] at h; cases h
  | some folders =>
    rw [List_map s order folders hf] at h
    split at h
    · cases h
    · simp only [Option.some.injEq] at h
      exact h.symm

theorem reSharedFolder_append (pre t : GoString) (h : reSharedFolderAt t ≠ none) :
    reSharedFolder (pre ++ t) ≠ none := by
  induction pre with
  | nil =>
    cases t with
    | nil => simpa [reSharedFolder] using h
    | cons c cs =>
      simp only [List.nil_append, reSharedFolder]
      cases hat : reSharedFolderAt (c :: cs) with
      | none => exact absurd hat h
      | some g => simp
  | cons c cs ih =>
    simp only [List.cons_append, reSharedFolder]
    cases hat : reSharedFolderAt (c :: (cs ++ t)) with
    | none => exact ih
    | some g => simp

/-- For a key with the prefix, `parseProperty` returns nil exactly when the
key ends with a text of the form
`SharedFolder<Field>(Machine|Transient)Mapping<index>`; what stands before
that text is not looked at. -/
theorem parseProperty_nil_iff (s : SharedFolders) (key value : GoString)
    (hkey : HasPrefix key "SharedFolder".toList = true) :
    (s.parseProperty key value).2 = none ↔
      ∃ pre a sc idx, (a = "Name".toList ∨ a = "Path".toList) ∧
        (sc = "Machine".toList ∨ sc = "Transient".toList) ∧
        idx ≠ [] ∧ idx.all isDecimal = true ∧
        key = pre ++ ("SharedFolder".toList ++ a ++ sc ++ "Mapping".toList ++ idx) := by
  constructor
  · intro h
    cases hre : reSharedFolder key with
    | none =>
      rw [parseProperty_no_match s key value hkey hre] at h
      cases h
    | some g =>
      obtain ⟨a, sc, idx⟩ := g
      obtain ⟨h1, h2, h3, h4, pre, h5⟩ := reSharedFolder_inv hre
      exact ⟨pre, a, sc, idx, h1, h2, h3, h4, h5⟩
  · rintro ⟨pre, a, sc, idx, h1, h2, h3, h4, h5⟩
    have hat : reSharedFolderAt ("SharedFolder".toList ++ a ++ sc ++ "Mapping".toList ++ idx)
        ≠ none := by
      rw [reSharedFolderAt_key a sc idx h1 h2 h3 h4]
      simp
    have hne := reSharedFolder_append pre _ hat
    rw [← h5] at hne
    cases hre : reSharedFolder key with
    | none => exact absurd hre hne
    | some g =>
      obtain ⟨a', sc', idx'⟩ := g
      rw [parseProperty_match s key value a' sc' idx' hkey hre]

/-! ## sfolder.go: the claims -/

/-- C10: for a scope `Machine` or `Transient`, an index of one decimal digit
or more and any name and path, the name line and the path line of that
scope and index, given to the fresh `SharedFolders` value in either order,
both return nil, and `List()` then returns one record, with that name and
that path. -/
theorem SharedFolders_reconstruction (scope idx name path : GoString)
    (s1 s2 t1 t2 : SharedFolders) (e1 e2 f1 f2 : Option GoString)
    (order order' : List (GoString × SharedFolder))
    (hscope : scope = "Machine".toList ∨ scope = "Transient".toList)
    (hidx : idx ≠ []) (hdigits : idx.all isDecimal = true)
    (h1 : SharedFolders.parseProperty ⟨none⟩
      ("SharedFolderName".toList ++ scope ++ "Mapping".toList ++ idx) name = (s1, e1))
    (h2 : s1.parseProperty
      ("SharedFolderPath".toList ++ scope ++ "Mapping".toList ++ idx) path = (s2, e2))
    (horder : order.Perm s2.entries)
    (g1 : SharedFolders.parseProperty ⟨none⟩
      ("SharedFolderPath".toList ++ scope ++ "Mapping".toList ++ idx) path = (t1, f1))
    (g2 : t1.parseProperty
      ("SharedFolderName".toList ++ scope ++ "Mapping".toList ++ idx) name = (t2, f2))
    (horder' : order'.Perm t2.entries) :
    e1 = none ∧ e2 = none ∧ SharedFolders.List (some s2) order = some [⟨name, path⟩] ∧
      f1 = none ∧ f2 = none ∧ SharedFolders.List (some t2) order' = some [⟨name, path⟩] := by
  rw [parseProperty_first_Name scope idx name hscope hidx hdigits] at h1
  obtain ⟨rfl, rfl⟩ := Prod.mk.inj h1
  rw [parseProperty_second_Path scope idx path _ hscope hidx hdigits] at h2
  obtain ⟨rfl, rfl⟩ := Prod.mk.inj h2
  rw [parseProperty_first_Path scope idx path hscope hidx hdigits] at g1
  obtain ⟨rfl, rfl⟩ := Prod.mk.inj g1
  rw [parseProperty_second_Name scope idx name _ hscope hidx hdigits] at g2
  obtain ⟨rfl, rfl⟩ := Prod.mk.inj g2
  exact ⟨rfl, rfl, List_single _ _ order horder, rfl, rfl, List_single _ _ order' horder'⟩

theorem SharedFolders_reconstruction_witness :
    (none : Option GoString) = none ∧ (none : Option GoString) = none ∧
      SharedFolders.List (some ⟨some ⟨[("Machine1".toList,
          ⟨"alpha".toList, "/host/alpha".toList⟩)], by decide⟩⟩)
        [("Machine1".toList, ⟨"alpha".toList, "/host/alpha".toList⟩)]
        = some [⟨"alpha".toList, "/host/alpha".toList⟩] ∧
      (none : Option GoString) = none ∧ (none : Option GoString) = none ∧
      SharedFolders.List (some ⟨some ⟨[("Machine1".toList,
          ⟨"alpha".toList, "/host/alpha".toList⟩)], by decide⟩⟩)
        [("Machine1".toList, ⟨"alpha".toList, "/host/alpha".toList⟩)]
        = some [⟨"alpha".toList, "/host/alpha".toList⟩] :=
  SharedFolders_reconstruction "Machine".toList "1".toList "alpha".toList "/host/alpha".toList
    ⟨some ⟨[("Machine1".toList, ⟨"alpha".toList, []⟩)], by decide⟩⟩
    ⟨some ⟨[("Machine1".toList, ⟨"alpha".toList, "/host/alpha".toList⟩)], by decide⟩⟩
    ⟨some ⟨[("Machine1".toList, ⟨[], "/host/alpha".toList⟩)], by decide⟩⟩
    ⟨some ⟨[("Machine1".toList, ⟨"alpha".toList, "/host/alpha".toList⟩)], by decide⟩⟩
    none none none none
    [("Machine1".toList, ⟨"alpha".toList, "/host/alpha".toList⟩)]
    [("Machine1".toList, ⟨"alpha".toList, "/host/alpha".toList⟩)]
    (Or.inl rfl) (by decide) (by decide) (by decide) (by decide) (List.Perm.refl _)
    (by decide) (by decide) (List.Perm.refl _)

/-- C11, the code at the key `SharedFolderXSharedFolderNameMachineMapping1`:
the key has the prefix, the pattern does not match at its start but matches
further on, since it is tied to the end of the key only; `parseProperty`
returns nil and stores the value as the name of the record `Machine1`. -/
theorem parseProperty_accepts_inner_match :
    HasPrefix "SharedFolderXSharedFolderNameMachineMapping1".toList "SharedFolder".toList
        = true ∧
      reSharedFolderAt "SharedFolderXSharedFolderNameMachineMapping1".toList = none ∧
      SharedFolders.parseProperty ⟨none⟩ "SharedFolderXSharedFolderNameMachineMapping1".toList
          "alpha".toList
        = (⟨some ⟨[("Machine1".toList, ⟨"alpha".toList, []⟩)], by decide⟩⟩, none) := by
  decide

/-- C12, as stated, fails: after the one line
`SharedFolderNameMachineMapping1=alpha`, a name line, `List()` returns the
record of `Machine1` with the name `alpha` and the empty path. -/
theorem List_returns_partial_record :
    reSharedFolder "SharedFolderNameMachineMapping1".toList
        = some ("Name".toList, "Machine".toList, "1".toList) ∧
      (SharedFolders.parseLines ⟨none⟩
          [("SharedFolderNameMachineMapping1".toList, "alpha".toList)]).entries
        = [("Machine1".toList, ⟨"alpha".toList, []⟩)] ∧
      SharedFolders.List
          (some (SharedFolders.parseLines ⟨none⟩
            [("SharedFolderNameMachineMapping1".toList, "alpha".toList)]))
          [("Machine1".toList, ⟨"alpha".toList, []⟩)]
        = some [⟨"alpha".toList, []⟩] := by
  decide

/-- After a sequence of calls on the fresh value with an accepted line,
`List()` is the list of the records in the order the map is visited. -/
theorem List_of_accepted (lines : List (GoString × GoString))
    (order : List (GoString × SharedFolder)) (id : GoString)
    (hacc : ∃ l ∈ lines, ∃ f, acceptedLine f id l) :
    SharedFolders.List (some (SharedFolders.parseLines ⟨none⟩ lines)) order
      = some (order.map (fun e => e.2)) := by
  obtain ⟨sf, hsf⟩ := (parseLines_records lines).2 id hacc
  cases hf : (SharedFolders.parseLines ⟨none⟩ lines).folders with
  | none => simp [SharedFolders.lookup, hf] at hsf
  | some folders =>
    have hget : folders.get id = some sf := by
      simpa [SharedFolders.lookup, hf] using hsf
    have hmem := (GoMap.get_eq_some_iff folders id sf).mp hget
    have hlen : ¬ folders.len = 0 := by
      intro h0
      have := List.eq_nil_of_length_eq_zero h0
      rw [this] at hmem
      simp at hmem
    rw [List_map _ order folders hf, if_neg hlen]

/-- C12, amended: after any sequence of calls on the fresh value, in
whatever order the map is visited: every record `List()` returns is the
record of an identifier for which a line was accepted, and each of its
fields that is not empty is the value of an accepted line for that field of
that identifier; and for every identifier for which a line was accepted
`List()` returns its record, with an empty name when no name line and an
empty path when no path line was accepted for it, so a record that got one
of the two lines only is returned all the same. -/
theorem List_records_from_lines (lines : List (GoString × GoString))
    (order : List (GoString × SharedFolder))
    (horder : order.Perm (SharedFolders.parseLines ⟨none⟩ lines).entries) :
    (∀ recs sf,
        SharedFolders.List (some (SharedFolders.parseLines ⟨none⟩ lines)) order = some recs →
        sf ∈ recs →
        ∃ id, (SharedFolders.parseLines ⟨none⟩ lines).lookup id = some sf ∧
          (∃ l ∈ lines, ∃ f, acceptedLine f id l) ∧
          (sf.Name ≠ [] → ∃ l ∈ lines, acceptedLine "Name".toList id l ∧ l.2 = sf.Name) ∧
          (sf.Path ≠ [] → ∃ l ∈ lines, acceptedLine "Path".toList id l ∧ l.2 = sf.Path)) ∧
      (∀ id, (∃ l ∈ lines, ∃ f, acceptedLine f id l) →
        ∃ recs sf,
          SharedFolders.List (some (SharedFolders.parseLines ⟨none⟩ lines)) order = some recs ∧
          sf ∈ recs ∧ (SharedFolders.parseLines ⟨none⟩ lines).lookup id = some sf ∧
          ((¬ ∃ l ∈ lines, acceptedLine "Name".toList id l) → sf.Name = []) ∧
          ((¬ ∃ l ∈ lines, acceptedLine "Path".toList id l) → sf.Path = [])) := by
  obtain ⟨hA, hB⟩ := parseLines_records lines
  constructor
  · intro recs sf hlist hsf
    rw [List_eq_some _ order recs hlist] at hsf
    obtain ⟨e, he, hes⟩ := List.mem_map.mp hsf
    have hmem : (e.1, sf) ∈ (SharedFolders.parseLines ⟨none⟩ lines).entries := by
      rw [← hes]
      exact horder.mem_iff.mp he
    have hlook := (mem_entries_iff _ _ _).mp hmem
    exact ⟨e.1, hlook, hA e.1 sf hlook⟩
  · intro id hacc
    obtain ⟨sf, hsf⟩ := hB id hacc
    have hin : (id, sf) ∈ order := horder.mem_iff.mpr ((mem_entries_iff _ _ _).mpr hsf)
    refine ⟨_, sf, List_of_accepted lines order id hacc,
      List.mem_map.mpr ⟨(id, sf), hin, rfl⟩, hsf, ?_, ?_⟩
    · intro hno
      by_contra hne
      obtain ⟨l, hl, hacc', _⟩ := (hA id sf hsf).2.1 hne
      exact hno ⟨l, hl, hacc'⟩
    · intro hno
      by_contra hne
      obtain ⟨l, hl, hacc', _⟩ := (hA id sf hsf).2.2 hne
      exact hno ⟨l, hl, hacc'⟩

theorem List_records_from_lines_witness :
    ∃ recs sf,
      SharedFolders.List
          (some (SharedFolders.parseLines ⟨none⟩
            [("SharedFolderPathTransientMapping2".toList, "/tmp".toList),
              ("VMState".toList, "running".toList),
              ("SharedFolderNameMachineMapping1".toList, "alpha".toList),
              ("SharedFolderPathMachineMapping1".toList, "/host/alpha".toList)]))
          [("Machine1".toList, ⟨"alpha".toList, "/host/alpha".toList⟩),
            ("Transient2".toList, ⟨[], "/tmp".toList⟩)] = some recs ∧
        sf ∈ recs ∧
        (SharedFolders.parseLines ⟨none⟩
            [("SharedFolderPathTransientMapping2".toList, "/tmp".toList),
              ("VMState".toList, "running".toList),
              ("SharedFolderNameMachineMapping1".toList, "alpha".toList),
              ("SharedFolderPathMachineMapping1".toList, "/host/alpha".toList)]).lookup
          "Transient2".toList = some sf ∧
        ((¬ ∃ l ∈ [("SharedFolderPathTransientMapping2".toList, "/tmp".toList),
              ("VMState".toList, "running".toList),
              ("SharedFolderNameMachineMapping1".toList, "alpha".toList),
              ("SharedFolderPathMachineMapping1".toList, "/host/alpha".toList)],
            acceptedLine "Name".toList "Transient2".toList l) → sf.Name = []) ∧
        ((¬ ∃ l ∈ [("SharedFolderPathTransientMapping2".toList, "/tmp".toList),
              ("VMState".toList, "running".toList),
              ("SharedFolderNameMachineMapping1".toList, "alpha".toList),
              ("SharedFolderPathMachineMapping1".toList, "/host/alpha".toList)],
            acceptedLine "Path".toList "Transient2".toList l) → sf.Path = []) :=
  (List_records_from_lines
    [("SharedFolderPathTransientMapping2".toList, "/tmp".toList),
      ("VMState".toList, "running".toList),
      ("SharedFolderNameMachineMapping1".toList, "alpha".toList),
      ("SharedFolderPathMachineMapping1".toList, "/host/alpha".toList)]
    [("Machine1".toList, ⟨"alpha".toList, "/host/alpha".toList⟩),
      ("Transient2".toList, ⟨[], "/tmp".toList⟩)]
    (List.Perm.swap _ _ _)).2 "Transient2".toList
      ⟨_, List.mem_cons_self _ _, "Path".toList, by decide, "Transient".toList, "2".toList,
        by decide, by decide⟩

/-- C16: `List()` on the nil receiver is nil; after a sequence of calls on
the fresh value it is nil when no line was accepted, and otherwise it holds
the records in the order the map is visited, one for each identifier of an
accepted line and none else, each being the record the map holds for its
identifier. -/
theorem List_after_lines (lines : List (GoString × GoString))
    (order : List (GoString × SharedFolder))
    (horder : order.Perm (SharedFolders.parseLines ⟨none⟩ lines).entries) :
    SharedFolders.List none order = none ∧
      ((¬ ∃ l ∈ lines, ∃ f id, acceptedLine f id l) →
        SharedFolders.List (some (SharedFolders.parseLines ⟨none⟩ lines)) order = none) ∧
      ((∃ l ∈ lines, ∃ f id, acceptedLine f id l) →
        SharedFolders.List (some (SharedFolders.parseLines ⟨none⟩ lines)) order
            = some (order.map (fun e => e.2)) ∧
          (order.map (fun e => e.1)).Nodup ∧
          (∀ id, id ∈ order.map (fun e => e.1) ↔ ∃ l ∈ lines, ∃ f, acceptedLine f id l) ∧
          ∀ e ∈ order, (SharedFolders.parseLines ⟨none⟩ lines).lookup e.1 = some e.2) := by
  obtain ⟨hA, hB⟩ := parseLines_records lines
  refine ⟨rfl, ?_, ?_⟩
  · intro hno
    cases hf : (SharedFolders.parseLines ⟨none⟩ lines).folders with
    | none => exact List_nil_map _ order hf
    | some folders =>
      rw [List_map _ order folders hf]
      cases hent : folders.entries with
      | nil => simp [GoMap.len, hent]
      | cons e rest =>
        have hlook : (SharedFolders.parseLines ⟨none⟩ lines).lookup e.1 = some e.2 := by
          apply (mem_entries_iff _ _ _).mp
          simp [SharedFolders.entries, hf, hent]
        obtain ⟨⟨l, hl, f, hacc⟩, _⟩ := hA _ _ hlook
        exact absurd ⟨l, hl, f, e.1, hacc⟩ hno
  · rintro ⟨l, hl, f, id, hacc⟩
    obtain ⟨sf, hsf⟩ := hB id ⟨l, hl, f, hacc⟩
    have hmem := (mem_entries_iff _ _ _).mpr hsf
    cases hf : (SharedFolders.parseLines ⟨none⟩ lines).folders with
    | none => simp [SharedFolders.entries, hf] at hmem
    | some folders =>
      have hent : (SharedFolders.parseLines ⟨none⟩ lines).entries = folders.entries := by
        simp only [SharedFolders.entries, hf]
      rw [hent] at hmem horder
      have hlen : ¬ folders.len = 0 := by
        intro h0
        have := List.eq_nil_of_length_eq_zero h0
        rw [this] at hmem
        simp at hmem
      refine ⟨?_, ?_, ?_, ?_⟩
      · rw [List_map _ order folders hf, if_neg hlen]
      · exact (List.Perm.nodup_iff (horder.map _)).mpr folders.nodup
      · intro id'
        constructor
        · intro hin
          obtain ⟨e, he, hid⟩ := List.mem_map.mp hin
          have he' : (e.1, e.2) ∈ (SharedFolders.parseLines ⟨none⟩ lines).entries := by
            rw [hent]
            exact horder.mem_iff.mp he
          have := (hA _ _ ((mem_entries_iff _ _ _).mp he')).1
          rw [← hid]
          exact this
        · intro hacc'
          obtain ⟨sf', hsf'⟩ := hB id' hacc'
          have hm := (mem_entries_iff _ _ _).mpr hsf'
          rw [hent] at hm
          exact List.mem_map.mpr ⟨(id', sf'), horder.mem_iff.mpr hm, rfl⟩
      · intro e he
        apply (mem_entries_iff _ _ _).mp
        rw [hent]
        exact horder.mem_iff.mp he

theorem List_after_lines_witness :
    SharedFolders.List
        (some (SharedFolders.parseLines ⟨none⟩
          [("SharedFolderNameMachineMapping1".toList, "a".toList),
            ("SharedFolderNameTransientMapping1".toList, "b".toList),
            ("SharedFolderPathMachineMapping1".toList, "/a".toList)]))
        [("Transient1".toList, ⟨"b".toList, []⟩), ("Machine1".toList, ⟨"a".toList, "/a".toList⟩)]
      = some [⟨"b".toList, []⟩, ⟨"a".toList, "/a".toList⟩] :=
  ((List_after_lines
    [("SharedFolderNameMachineMapping1".toList, "a".toList),
      ("SharedFolderNameTransientMapping1".toList, "b".toList),
      ("SharedFolderPathMachineMapping1".toList, "/a".toList)]
    [("Transient1".toList, ⟨"b".toList, []⟩), ("Machine1".toList, ⟨"a".toList, "/a".toList⟩)]
    (List.Perm.swap _ _ _)).2.2
      ⟨_, List.mem_cons_self _ _, "Name".toList, "Machine1".toList, by decide,
        "Machine".toList, "1".toList, by decide, by decide⟩).1

/-- C20: a call of `parseProperty` with an accepted key, whose groups are
the field, the scope and the index, returns nil, sets that field of the
record with the identifier scope+index to the value, leaves the other field
of that record as it was (empty for a new record) and leaves the record of
every other identifier as it was; and scope+index is the same for two
pairs of a scope `Machine` or `Transient` and an index only when the pairs
are the same. -/
theorem parseProperty_touches_one_field (s : SharedFolders)
    (key value field scope idx : GoString)
    (hkey : HasPrefix key "SharedFolder".toList = true)
    (hre : reSharedFolder key = some (field, scope, idx)) :
    (s.parseProperty key value).2 = none ∧
      (∀ id, id ≠ scope ++ idx → (s.parseProperty key value).1.lookup id = s.lookup id) ∧
      (∃ sf, (s.parseProperty key value).1.lookup (scope ++ idx) = some sf ∧
        (field = "Name".toList → sf.Name = value ∧
          sf.Path = match s.lookup (scope ++ idx) with
            | some old => old.Path
            | none => []) ∧
        (field = "Path".toList → sf.Path = value ∧
          sf.Name = match s.lookup (scope ++ idx) with
            | some old => old.Name
            | none => [])) ∧
      (field = "Name".toList ∨ field = "Path".toList) ∧
      ∀ sc1 i1 sc2 i2 : GoString, (sc1 = "Machine".toList ∨ sc1 = "Transient".toList) →
        (sc2 = "Machine".toList ∨ sc2 = "Transient".toList) →
        sc1 ++ i1 = sc2 ++ i2 → sc1 = sc2 ∧ i1 = i2 := by
  have hne : ¬ "Path".toList = "Name".toList := by decide
  refine ⟨?_, ?_, ?_, (reSharedFolder_inv hre).1, ?_⟩
  · rw [parseProperty_match s key value field scope idx hkey hre]
  · intro id hid
    exact lookup_parseProperty_other s key value field scope idx id hkey hre hid
  · refine ⟨_, lookup_parseProperty_same s key value field scope idx hkey hre, ?_, ?_⟩
    · intro hf
      subst hf
      rw [assign_Name, assign_Path]
      cases s.lookup (scope ++ idx) <;> simp
    · intro hf
      subst hf
      rw [assign_Name, assign_Path]
      cases s.lookup (scope ++ idx) <;> simp [hne]
  · intro sc1 i1 sc2 i2 h1 h2 heq
    rcases h1 with rfl | rfl <;> rcases h2 with rfl | rfl
    · exact ⟨rfl, List.append_cancel_left heq⟩
    · exact absurd (List.head_eq_of_cons_eq heq) (by decide)
    · exact absurd (List.head_eq_of_cons_eq heq) (by decide)
    · exact ⟨rfl, List.append_cancel_left heq⟩

theorem parseProperty_touches_one_field_witness :
    (SharedFolders.parseProperty
        ⟨some ⟨[("Machine1".toList, ⟨"a".toList, "/a".toList⟩),
          ("Transient1".toList, ⟨"b".toList, "/b".toList⟩)], by decide⟩⟩
        "SharedFolderPathMachineMapping1".toList "/new".toList).2 = none ∧
      ∀ id, id ≠ "Machine".toList ++ "1".toList →
        (SharedFolders.parseProperty
          ⟨some ⟨[("Machine1".toList, ⟨"a".toList, "/a".toList⟩),
            ("Transient1".toList, ⟨"b".toList, "/b".toList⟩)], by decide⟩⟩
          "SharedFolderPathMachineMapping1".toList "/new".toList).1.lookup id
        = SharedFolders.lookup
          ⟨some ⟨[("Machine1".toList, ⟨"a".toList, "/a".toList⟩),
            ("Transient1".toList, ⟨"b".toList, "/b".toList⟩)], by decide⟩⟩ id :=
  ⟨(parseProperty_touches_one_field _ "SharedFolderPathMachineMapping1".toList "/new".toList
      "Path".toList "Machine".toList "1".toList (by decide) (by decide)).1,
    (parseProperty_touches_one_field _ "SharedFolderPathMachineMapping1".toList "/new".toList
      "Path".toList "Machine".toList "1".toList (by decide) (by decide)).2.1⟩

/-! ## vbm.go: lemmas -/

theorem LogMessage_returns (h : Hooks) (msg : GoString) : LogMessage h msg = .ok () := by
  unfold LogMessage
  split
  · rfl
  · split <;> rfl

theorem logOut_returns (h : Hooks) (msg : GoString) : logOut h msg = .ok () := by
  unfold logOut
  split
  · rfl
  · split
    · rfl
    · split
      · rfl
      · split <;> rfl

/-- The call `logErr(msg)` panics exactly when the message is not empty,
`LogOut` is set and `LogErr` is nil. -/
theorem logErr_returns_iff (h : Hooks) (msg : GoString) :
    logErr h msg = .ok () ↔ ¬ (msg ≠ [] ∧ h.LogOut.isSome = true ∧ h.LogErr.isSome = false) := by
  unfold logErr
  by_cases hmsg : msg = []
  · simp [hmsg]
  · cases hout : h.LogOut with
    | none =>
      simp only [hmsg, if_false, Option.isSome_none, Bool.false_eq_true, false_and, and_false,
        not_false_eq_true, iff_true]
      split
      · rfl
      · split <;> rfl
    | some f =>
      cases herr : h.LogErr with
      | none => simp [hmsg]
      | some g => simp [hmsg]

/-- What `vbmOutErr` returns when the call of `logErr` returns. -/
theorem vbmOutErr_returns (lib : GoLib) (h : Hooks) (VBM : GoString) (args : List GoString)
    (run : CmdResult) (hlog : logErr h run.stderr = .ok ()) :
    vbmOutErr lib h VBM args run = .ok (run.stdout, run.stderr,
      match run.err with
      | none => none
      | some e =>
        some (match (match e with
            | .execError _ _ =>
              if e.ifaceEq (.var .ErrNotFound) then GoErr.var .ErrVBMNotFound else e
            | _ => e) with
          | .exitError st =>
            match reErrorMessage run.stderr with
            | some res1 => GoErr.errorsNew res1
            | none => GoErr.exitError st
          | e1 => e1)) := by
  unfold vbmOutErr
  simp only [LogMessage_returns, logOut_returns, hlog]
  cases run.err with
  | none => rfl
  | some e => cases e <;> rfl

theorem findAfter_first (pat pre post : GoString)
    (hfirst : ∀ p q, pre ++ pat ++ post = p ++ pat ++ q → pre.length ≤ p.length) :
    findAfter pat (pre ++ pat ++ post) = some post := by
  induction pre with
  | nil =>
    have h := stripLit_append pat post
    simp only [List.nil_append]
    cases hs : pat ++ post with
    | nil => rw [hs] at h; simpa [findAfter] using h
    | cons c cs => rw [hs] at h; simp only [findAfter, h]
  | cons c cs ih =>
    have hnone : stripLit pat (c :: cs ++ pat ++ post) = none := by
      cases hs : stripLit pat (c :: cs ++ pat ++ post) with
      | none => rfl
      | some rest =>
        have := hfirst [] rest (by simpa using stripLit_eq_some hs)
        simp at this
    simp only [List.cons_append, List.append_assoc] at hnone ⊢
    simp only [findAfter, hnone]
    rw [← List.append_assoc]
    apply ih
    intro p q hpq
    have := hfirst (c :: p) q (by simp only [List.cons_append, hpq])
    simpa using this

theorem findAfter_occurs (pat s rest : GoString) (h : findAfter pat s = some rest) :
    ∃ pre, s = pre ++ pat ++ rest := by
  induction s with
  | nil =>
    simp only [findAfter] at h
    exact ⟨[], by simpa using stripLit_eq_some h⟩
  | cons c cs ih =>
    simp only [findAfter] at h
    cases hs : stripLit pat (c :: cs) with
    | some r =>
      rw [hs] at h
      simp only [Option.some.injEq] at h
      subst h
      exact ⟨[], by simpa using stripLit_eq_some hs⟩
    | none =>
      rw [hs] at h
      obtain ⟨pre, hpre⟩ := ih h
      exact ⟨c :: pre, by simp only [hpre, List.cons_append]⟩

theorem findAfter_none (pat s : GoString)
    (h : ¬ ∃ pre post, s = pre ++ pat ++ post) : findAfter pat s = none := by
  cases hf : findAfter pat s with
  | none => rfl
  | some rest =>
    obtain ⟨pre, hpre⟩ := findAfter_occurs pat s rest hf
    exact absurd ⟨pre, rest, hpre⟩ h

/-! ## vbm.go: the claims -/

/-- C2, the code at an error that wraps `exec.ErrNotFound`: the comparison
`ee == exec.ErrNotFound` sets a `*exec.Error` against a value of another
dynamic type and is false, so `vbmOutErr` returns the `*exec.Error` itself
and not `ErrVBMNotFound`. -/
theorem vbmOutErr_exec_not_found (lib : GoLib) (h : Hooks) (VBM name out : GoString)
    (args : List GoString) :
    GoErr.ifaceEq (.execError name (.var .ErrNotFound)) (.var .ErrNotFound) = false ∧
      vbmOutErr lib h VBM args ⟨out, [], some (.execError name (.var .ErrNotFound))⟩
        = .ok (out, [], some (.execError name (.var .ErrNotFound))) ∧
      vbmOutErr lib h VBM args ⟨out, [], some (.execError name (.var .ErrNotFound))⟩
        ≠ .ok (out, [], some (.var .ErrVBMNotFound)) := by
  have hret := vbmOutErr_returns lib h VBM args
    ⟨out, [], some (.execError name (.var .ErrNotFound))⟩ (by simp [logErr])
  have hcmp : GoErr.ifaceEq (.execError name (.var .ErrNotFound)) (.var .ErrNotFound) = false := by
    simp [GoErr.ifaceEq, GoErr.dynType]
  simp only [hcmp, Bool.false_eq_true, if_false] at hret
  refine ⟨hcmp, hret, ?_⟩
  rw [hret]
  simp

/-- When the call of `logErr` returns: for a command that ends with an
`*exec.ExitError` and a stderr that contains the marker
`VBoxManage: error: `, `vbmOutErr` returns the two buffers and an error
made by `errors.New` whose text is what follows the first occurrence of the
marker, up to the next newline or the end of stderr. -/
theorem vbmOutErr_tool_message (lib : GoLib) (h : Hooks) (VBM out pre post state : GoString)
    (args : List GoString)
    (hfirst : ∀ p q, pre ++ errorMarker ++ post = p ++ errorMarker ++ q → pre.length ≤ p.length)
    (hlog : logErr h (pre ++ errorMarker ++ post) = .ok ()) :
    vbmOutErr lib h VBM args ⟨out, pre ++ errorMarker ++ post, some (.exitError state)⟩
        = .ok (out, pre ++ errorMarker ++ post,
            some (.errorsNew (post.takeWhile (fun c => c != '\n')))) ∧
      (GoErr.errorsNew (post.takeWhile (fun c => c != '\n'))).Error lib
        = post.takeWhile (fun c => c != '\n') := by
  have hre : reErrorMessage (pre ++ errorMarker ++ post)
      = some (post.takeWhile (fun c => c != '\n')) := by
    simp only [reErrorMessage, findAfter_first errorMarker pre post hfirst]
  constructor
  · rw [vbmOutErr_returns lib h VBM args _ hlog]
    simp only [hre]
  · rfl

/-- When the call of `logErr` returns: `vbmOutErr` returns the two buffers
and an error that is nil for a nil execution error and otherwise non-nil
and one of `ErrVBMNotFound`, an `errors.New` error with the text
`reErrorMessage` found in stderr, or the execution error itself; an
`*exec.ExitError` with no marker in stderr comes back as it is. -/
theorem vbmOutErr_classifies (lib : GoLib) (h : Hooks) (VBM : GoString) (args : List GoString)
    (run : CmdResult) (hlog : logErr h run.stderr = .ok ()) :
    ∃ err, vbmOutErr lib h VBM args run = .ok (run.stdout, run.stderr, err) ∧
      (run.err = none → err = none) ∧
      (∀ e, run.err = some e → err ≠ none ∧
        (err = some (.var .ErrVBMNotFound) ∨
          (∃ msg, reErrorMessage run.stderr = some msg ∧ err = some (.errorsNew msg)) ∨
          err = some e)) ∧
      (∀ state, run.err = some (.exitError state) →
        (¬ ∃ pre post, run.stderr = pre ++ errorMarker ++ post) →
        err = some (.exitError state)) := by
  refine ⟨_, vbmOutErr_returns lib h VBM args run hlog, ?_, ?_, ?_⟩
  · intro hnil
    rw [hnil]
  · intro e he
    rw [he]
    refine ⟨by simp, ?_⟩
    cases e with
    | execError name inner =>
      have hcmp : GoErr.ifaceEq (.execError name inner) (.var .ErrNotFound) = false := by
        simp [GoErr.ifaceEq, GoErr.dynType]
      simp [hcmp]
    | exitError state =>
      cases hre : reErrorMessage run.stderr with
      | none => simp
      | some msg => simp
    | var v => simp
    | errorsNew text => simp
    | other text => simp
  · intro state he hno
    rw [he]
    have hre : reErrorMessage run.stderr = none := by
      simp only [reErrorMessage, findAfter_none errorMarker run.stderr hno]
    simp only [hre]

/-- With `LogOut` set and `LogErr` nil the call of `logErr` on a text that
is not empty calls the nil function. -/
theorem logErr_nil_hook (verbose : Bool) (log : Option (GoString → Unit))
    (f : GoString → Unit) (msg : GoString) (hmsg : msg ≠ []) :
    logErr ⟨verbose, log, some f, none⟩ msg = .error .nilFuncCall := by
  simp only [logErr, hmsg, if_false]

/-- A panic of the call of `logErr` is a panic of `vbmOutErr`. -/
theorem vbmOutErr_panics (lib : GoLib) (h : Hooks) (VBM : GoString) (args : List GoString)
    (run : CmdResult) (p : Panic) (hlog : logErr h run.stderr = .error p) :
    vbmOutErr lib h VBM args run = .error p := by
  unfold vbmOutErr
  simp only [LogMessage_returns, logOut_returns, hlog]
  cases run.err with
  | none => rfl
  | some e => rfl

/-- C3, the code with `LogOut` set and `LogErr` nil, at a command that ends
with an `*exec.ExitError` and the stderr
`VBoxManage: error: machine already exists`: `logErr` calls the nil function
before the error is looked at, and `vbmOutErr` panics; with all hooks nil
the same command gives the error with the text `machine already exists`. -/
theorem vbmOutErr_tool_message_nil_hook :
    vbmOutErr sampleLib ⟨false, none, some (fun _ => ()), none⟩ "VBoxManage".toList
        ["createvm".toList]
        ⟨[], "VBoxManage: error: machine already exists".toList,
          some (GoErr.exitError "exit status 1".toList)⟩
      = .error .nilFuncCall ∧
    vbmOutErr sampleLib ⟨false, none, none, none⟩ "VBoxManage".toList ["createvm".toList]
        ⟨[], "VBoxManage: error: machine already exists".toList,
          some (GoErr.exitError "exit status 1".toList)⟩
      = .ok ([], "VBoxManage: error: machine already exists".toList,
          some (GoErr.errorsNew "machine already exists".toList)) :=
  ⟨rfl, rfl⟩

/-- C4, the code with `LogOut` set and `LogErr` nil, at a command that ends
with an `*exec.ExitError` and a stderr without the marker: `logErr` calls
the nil function and `vbmOutErr` panics, so no error is returned at all;
with all hooks nil the same command gives the execution error itself. -/
theorem vbmOutErr_classifies_nil_hook :
    vbmOutErr sampleLib ⟨false, none, some (fun _ => ()), none⟩ "VBoxManage".toList
        ["startvm".toList, "box".toList]
        ⟨"out".toList, "no such thing".toList, some (GoErr.exitError "exit status 1".toList)⟩
      = .error .nilFuncCall ∧
    vbmOutErr sampleLib ⟨false, none, none, none⟩ "VBoxManage".toList
        ["startvm".toList, "box".toList]
        ⟨"out".toList, "no such thing".toList, some (GoErr.exitError "exit status 1".toList)⟩
      = .ok ("out".toList, "no such thing".toList,
          some (GoErr.exitError "exit status 1".toList)) :=
  ⟨rfl, rfl⟩

/-- When the call of `logErr` returns, the hooks have no part in what
`vbmOutErr` returns. -/
theorem vbmOutErr_hooks_irrelevant (lib : GoLib) (h : Hooks) (VBM : GoString)
    (args : List GoString) (run : CmdResult) (hlog : logErr h run.stderr = .ok ()) :
    vbmOutErr lib h VBM args run = vbmOutErr lib ⟨false, none, none, none⟩ VBM args run := by
  rw [vbmOutErr_returns lib h VBM args run hlog,
    vbmOutErr_returns lib ⟨false, none, none, none⟩ VBM args run
      ((logErr_returns_iff _ _).mpr (by simp))]

/-- C13, the code with `LogOut` set and `LogErr` nil: `logOut` returns, but
`logErr`, whose second case tests `LogOut` and calls `LogErr`, calls the nil
function on a non-empty stderr; `vbmOutErr` panics there, where with all
hooks nil it returns the two buffers and a nil error. -/
theorem logErr_calls_nil_hook :
    logOut ⟨false, none, some (fun _ => ()), none⟩ "out".toList = .ok () ∧
      logErr ⟨false, none, some (fun _ => ()), none⟩ "warning".toList = .error .nilFuncCall ∧
      vbmOutErr sampleLib ⟨false, none, some (fun _ => ()), none⟩ "VBoxManage".toList
          ["list".toList, "vms".toList] ⟨"out".toList, "warning".toList, none⟩
        = .error .nilFuncCall ∧
      vbmOutErr sampleLib ⟨false, none, none, none⟩ "VBoxManage".toList
          ["list".toList, "vms".toList] ⟨"out".toList, "warning".toList, none⟩
        = .ok ("out".toList, "warning".toList, none) :=
  ⟨rfl, rfl, rfl, rfl⟩


/-! ## vbm.go: the line patterns -/

theorem findLeftmost_some {α : Type} (pattern : GoString → Option α) (t : GoString) (a : α)
    (h : pattern t = some a) : findLeftmost pattern t = some a := by
  cases t with
  | nil => simpa [findLeftmost] using h
  | cons c cs => simp only [findLeftmost, h]

theorem dotStar_none {α : Type} (rest : GoString → Option α) (t : GoString)
    (h : ∀ y z, t = y ++ z → rest z = none) : dotStar rest t = none := by
  induction t with
  | nil => simp only [dotStar, h [] [] rfl, Option.map_none']
  | cons c cs ih =>
    have hcs : dotStar rest cs = none := ih (fun y z hyz => h (c :: y) z (by rw [hyz]; rfl))
    simp only [dotStar, hcs, ite_self, h [] (c :: cs) rfl, Option.map_none']

/-- A greedy `.*` stops before `r` when the text before `r` has no newline,
the rest of the pattern matches at `r` and matches nowhere further on. -/
theorem dotStar_unique {α : Type} (rest : GoString → Option α) (x r : GoString) (a : α)
    (hx : '\n' ∉ x) (hr : rest r = some a)
    (hlater : ∀ y z, r = y ++ z → y ≠ [] → rest z = none) :
    dotStar rest (x ++ r) = some (x, a) := by
  induction x with
  | nil =>
    cases r with
    | nil => simp only [List.nil_append, dotStar, hr, Option.map_some']
    | cons c cs =>
      have hcs : dotStar rest cs = none :=
        dotStar_none rest cs (fun y z hyz => hlater (c :: y) z (by rw [hyz]; rfl) (by simp))
      simp only [List.nil_append, dotStar, hcs, ite_self, hr, Option.map_some']
  | cons c cs ih =>
    have hc : c ≠ '\n' := fun h => hx (by simp [h])
    have hcs : '\n' ∉ cs := fun h => hx (List.mem_cons_of_mem _ h)
    have := ih hcs
    simp only [List.cons_append, dotStar, hc, ne_eq, not_false_eq_true, if_true]
    rw [List.append_eq, this]

theorem dotPlus_unique {α : Type} (rest : GoString → Option α) (x r : GoString) (a : α)
    (hne : x ≠ []) (hx : '\n' ∉ x) (hr : rest r = some a)
    (hlater : ∀ y z, r = y ++ z → y ≠ [] → rest z = none) :
    dotPlus rest (x ++ r) = some (x, a) := by
  cases x with
  | nil => exact absurd rfl hne
  | cons c cs =>
    have hc : c ≠ '\n' := fun h => hx (by simp [h])
    have hcs : '\n' ∉ cs := fun h => hx (List.mem_cons_of_mem _ h)
    have := dotStar_unique rest cs r a hcs hr hlater
    simp only [List.cons_append, dotPlus, hc, ne_eq, not_false_eq_true, if_true]
    rw [this]
    rfl

theorem dotStar_all (x : GoString) (hx : '\n' ∉ x) :
    dotStar (fun _ => some ()) x = some (x, ()) := by
  have := dotStar_unique (fun _ => some ()) x [] () hx rfl
    (fun y z hyz hy => absurd (List.append_eq_nil.mp hyz.symm).1 hy)
  simpa using this

theorem spaceStar_no_space {α : Type} (rest : GoString → Option α) (v : GoString)
    (hv : ∀ c cs, v = c :: cs → isSpace c = false) : spaceStar rest v = rest v := by
  cases v with
  | nil => rfl
  | cons c cs => simp only [spaceStar, hv c cs rfl, Bool.false_eq_true, if_false]

theorem stripLit_char_none (c : Char) (z : GoString) (h : c ∉ z) : stripLit [c] z = none := by
  cases hs : stripLit [c] z with
  | none => rfl
  | some r =>
    have := stripLit_eq_some hs
    exact absurd (by rw [this]; simp) h

theorem reVMInfoValue_plain (v : GoString) (hq : '"' ∉ v) (hn : '\n' ∉ v) :
    reVMInfoValue v = some ([], v) := by
  simp only [reVMInfoValue, stripLit_char_none '"' v hq, dotStar_all v hn, Option.map_some']

theorem reVMInfoValue_quoted (v : GoString) (hq : '"' ∉ v) (hn : '\n' ∉ v) :
    reVMInfoValue ('"' :: (v ++ ['"'])) = some (v, []) := by
  have h := dotStar_unique (fun r' : GoString => (stripLit ['"'] r').map (fun _ => ()))
    v ['"'] () hn rfl
    (by
      intro y z hyz hy
      have hz : z = [] := by
        cases y with
        | nil => exact absurd rfl hy
        | cons a y' =>
          simp only [List.cons_append, List.cons.injEq] at hyz
          exact (List.append_eq_nil.mp hyz.2.symm).2
      rw [hz]
      rfl)
  have hs : stripLit ['"'] ('"' :: (v ++ ['"'])) = some (v ++ ['"']) :=
    stripLit_append ['"'] (v ++ ['"'])
  have _ := hq
  simp only [reVMInfoValue, hs, h]

theorem reVMInfoLineAt_plain_key (k w g3 g4 : GoString) (hk : k ≠ []) (hkq : '"' ∉ k)
    (hkn : '\n' ∉ k) (hwe : '=' ∉ w) (hval : reVMInfoValue w = some (g3, g4)) :
    reVMInfoLineAt (k ++ '=' :: w) = some ([], k, g3, g4) := by
  have hr : (stripLit ['='] ('=' :: w)).bind reVMInfoValue = some (g3, g4) := by
    rw [show '=' :: w = ['='] ++ w from rfl, stripLit_append]
    exact hval
  have h := dotPlus_unique (fun r' : GoString => (stripLit ['='] r').bind reVMInfoValue)
    k ('=' :: w) (g3, g4) hk hkn hr
    (by
      intro y z hyz hy
      have hz : '=' ∉ z := by
        cases y with
        | nil => exact absurd rfl hy
        | cons a y' =>
          simp only [List.cons_append, List.cons.injEq] at hyz
          intro hin
          exact hwe (by rw [hyz.2]; exact List.mem_append_right _ hin)
      beta_reduce
      rw [stripLit_char_none '=' z hz]
      rfl)
  have hno : stripLit ['"'] (k ++ '=' :: w) = none := by
    cases k with
    | nil => exact absurd rfl hk
    | cons c cs =>
      have hc : ¬ '"' = c := fun h => hkq (by simp [← h])
      simp only [List.cons_append, stripLit, hc, if_false]
  simp only [reVMInfoLineAt, hno, h, Option.map_some']

theorem reVMInfoLineAt_quoted_key (k w g3 g4 : GoString) (hk : k ≠ [])
    (hkn : '\n' ∉ k) (hwe : '=' ∉ w) (hval : reVMInfoValue w = some (g3, g4)) :
    reVMInfoLineAt ('"' :: (k ++ '"' :: '=' :: w)) = some (k, [], g3, g4) := by
  have hr : (stripLit ['"', '='] ('"' :: '=' :: w)).bind reVMInfoValue = some (g3, g4) := by
    rw [show '"' :: '=' :: w = ['"', '='] ++ w from rfl, stripLit_append]
    exact hval
  have h := dotPlus_unique (fun r' : GoString => (stripLit ['"', '='] r').bind reVMInfoValue)
    k ('"' :: '=' :: w) (g3, g4) hk hkn hr
    (by
      intro y z hyz hy
      have hnone : stripLit ['"', '='] z = none := by
        cases hs : stripLit ['"', '='] z with
        | none => rfl
        | some r =>
          have hzr := stripLit_eq_some hs
          cases y with
          | nil => exact absurd rfl hy
          | cons a y' =>
            simp only [List.cons_append, List.cons.injEq] at hyz
            cases y' with
            | nil =>
              simp only [List.nil_append] at hyz
              rw [← hyz.2] at hzr
              simp only [List.cons_append, List.cons.injEq] at hzr
              exact absurd hzr.1 (by decide)
            | cons b y'' =>
              simp only [List.cons_append, List.cons.injEq] at hyz
              exact absurd (by rw [hyz.2.2, hzr]; simp) hwe
      beta_reduce
      rw [hnone]
      rfl)
  have hs : stripLit ['"'] ('"' :: (k ++ '"' :: '=' :: w)) = some (k ++ '"' :: '=' :: w) :=
    stripLit_append ['"'] _
  simp only [reVMInfoLineAt, hs, h]

theorem reColonLineAt_line (k v : GoString) (hk : k ≠ []) (hkn : '\n' ∉ k) (hvn : '\n' ∉ v)
    (hvs : ∀ c cs, v = c :: cs → isSpace c = false)
    (hvc : ∀ y c z, v = y ++ ':' :: c :: z → isSpace c = false) :
    reColonLineAt (k ++ ':' :: ' ' :: v) = some (k, v) := by
  have hrest : (stripLit [':'] (':' :: ' ' :: v)).bind
      (spacePlus (fun r' : GoString => (dotStar (fun _ => some ()) r').map (fun g => g.1)))
      = some v := by
    have hsp : isSpace ' ' = true := by decide
    rw [show ':' :: ' ' :: v = [':'] ++ ' ' :: v from rfl, stripLit_append]
    simp only [Option.some_bind, spacePlus, hsp, if_true]
    rw [spaceStar_no_space _ v hvs, dotStar_all v hvn]
    rfl
  have h := dotPlus_unique
    (fun r : GoString =>
      (stripLit [':'] r).bind
        (spacePlus (fun r' => (dotStar (fun _ => some ()) r').map (fun g => g.1))))
    k (':' :: ' ' :: v) v hk hkn hrest
    (by
      intro y z hyz hy
      beta_reduce
      cases hs : stripLit [':'] z with
      | none => rfl
      | some r =>
        have hzr := stripLit_eq_some hs
        simp only [Option.some_bind]
        cases y with
        | nil => exact absurd rfl hy
        | cons a y' =>
          simp only [List.cons_append, List.cons.injEq] at hyz
          cases y' with
          | nil =>
            simp only [List.nil_append] at hyz
            rw [← hyz.2] at hzr
            simp only [List.cons_append, List.cons.injEq] at hzr
            exact absurd hzr.1 (by decide)
          | cons b y'' =>
            simp only [List.cons_append, List.cons.injEq] at hyz
            cases r with
            | nil => rfl
            | cons c2 z'' =>
              have := hvc y'' c2 z'' (by rw [hyz.2.2, hzr]; rfl)
              simp only [spacePlus, this, Bool.false_eq_true, if_false])
  simp only [reColonLineAt, h]

/-- C17, as stated, fails for `reColonLine`: with the key `a` and the value
`b: c`, which have no double quote, no `=` and no newline, the line
`a: b: c` gives the groups `a: b` and `c`, since `(.+)` is greedy. -/
theorem reColonLine_takes_last_colon :
    reColonLine ("a".toList ++ ':' :: ' ' :: "b: c".toList)
        = some ("a: b".toList, "c".toList) ∧
      reColonLine ("a".toList ++ ':' :: ' ' :: "b: c".toList)
        ≠ some ("a".toList, "b: c".toList) := by
  decide

/-- C17, amended: for a non-empty key `k` and a value `v` without double
quote and newline, the value also without `=`, the pattern `reVMInfoLine`
matches the lines `k=v`, `"k"=v`, `k="v"` and `"k"="v"` with `k` as group 2
or 1 and `v` as group 4 or 3, the quotes left out; and `reColonLine`
matches `k: v` with the groups `k` and `v` when moreover `v` does not begin
with a white-space character and has no colon followed by one. -/
theorem line_patterns (k v : GoString) (hk : k ≠ []) (hkq : '"' ∉ k) (hkn : '\n' ∉ k)
    (hvq : '"' ∉ v) (hve : '=' ∉ v) (hvn : '\n' ∉ v) :
    reVMInfoLine (k ++ '=' :: v) = some ([], k, [], v) ∧
      reVMInfoLine ('"' :: (k ++ '"' :: '=' :: v)) = some (k, [], [], v) ∧
      reVMInfoLine (k ++ '=' :: '"' :: (v ++ ['"'])) = some ([], k, v, []) ∧
      reVMInfoLine ('"' :: (k ++ '"' :: '=' :: '"' :: (v ++ ['"']))) = some (k, [], v, []) ∧
      ((∀ c cs, v = c :: cs → isSpace c = false) →
        (∀ y c z, v = y ++ ':' :: c :: z → isSpace c = false) →
        reColonLine (k ++ ':' :: ' ' :: v) = some (k, v)) := by
  have hplain := reVMInfoValue_plain v hvq hvn
  have hquoted := reVMInfoValue_quoted v hvq hvn
  have hwe : '=' ∉ '"' :: (v ++ ['"']) := by
    intro h
    rcases List.mem_cons.mp h with h | h
    · exact absurd h (by decide)
    · rcases List.mem_append.mp h with h | h
      · exact hve h
      · exact absurd (List.mem_singleton.mp h) (by decide)
  refine ⟨?_, ?_, ?_, ?_, ?_⟩
  · exact findLeftmost_some _ _ _ (reVMInfoLineAt_plain_key k v [] v hk hkq hkn hve hplain)
  · exact findLeftmost_some _ _ _ (reVMInfoLineAt_quoted_key k v [] v hk hkn hve hplain)
  · exact findLeftmost_some _ _ _ (reVMInfoLineAt_plain_key k _ v [] hk hkq hkn hwe hquoted)
  · exact findLeftmost_some _ _ _ (reVMInfoLineAt_quoted_key k _ v [] hk hkn hwe hquoted)
  · intro hvs hvc
    exact findLeftmost_some _ _ _ (reColonLineAt_line k v hk hkn hvn hvs hvc)

theorem line_patterns_witness :
    reVMInfoLine ("name".toList ++ '=' :: "my box".toList)
        = some ([], "name".toList, [], "my box".toList) ∧
      reVMInfoLine ('"' :: ("name".toList ++ '"' :: '=' :: "my box".toList))
        = some ("name".toList, [], [], "my box".toList) ∧
      reVMInfoLine ("name".toList ++ '=' :: '"' :: ("my box".toList ++ ['"']))
        = some ([], "name".toList, "my box".toList, []) ∧
      reVMInfoLine ('"' :: ("name".toList ++ '"' :: '=' :: '"' :: ("my box".toList ++ ['"'])))
        = some ("name".toList, [], "my box".toList, []) ∧
      reColonLine ("name".toList ++ ':' :: ' ' :: "my box".toList)
        = some ("name".toList, "my box".toList) :=
  have h := line_patterns "name".toList "my box".toList (by decide) (by decide) (by decide)
    (by decide) (by decide) (by decide)
  ⟨h.1, h.2.1, h.2.2.1, h.2.2.2.1, h.2.2.2.2
    (fun c cs hc => by
      cases hc
      rfl)
    (fun y c z hv => by
      have hin : ':' ∈ "my box".toList := by
        rw [hv]
        simp
      exact absurd hin (by decide))⟩

end VirtualBox
